import Mathlib

/- Shallow embedding of the mosquito tiling core (src/core.rs).

   Machine integers: u64 is modelled as Nat and i64 as Int; the geometric
   claims are about values far below the 64-bit bounds, so wrap-around is
   out of scope for this development.  The Rust methods mutate state through
   references; here each one is a pure function returning the updated state
   next to its result.  A `&mut Region` argument of a Workspace method is
   modelled by the index of the region inside `regions` that the reference
   aliases (the only reading under which the workspace ever observes the
   mutation, and the one the specification describes). -/

structure Rectangle where
  w : Nat
  h : Nat
deriving DecidableEq, Inhabited

structure Position where
  x : Int
  y : Int
deriving DecidableEq, Inhabited

inductive Direction where
  | Up
  | Down
  | Left
  | Right
deriving DecidableEq, Inhabited

structure Region where
  size : Rectangle
  pos : Position
  float : Bool
deriving DecidableEq, Inhabited

structure Workspace where
  size : Rectangle
  regions : List Region
deriving DecidableEq, Inhabited

inductive ErrorKind where
  | UnknownRegion
  | UnknownWorkspace
  | UnknownMonitor
  | InvalidRegion
  | NoAdjacentRegions
deriving DecidableEq, Inhabited

inductive Resize where
  | Top (d : Int)
  | Bottom (d : Int)
  | Left (d : Int)
  | Right (d : Int)
  | TopLeft (t l : Int)
  | TopRight (t r : Int)
  | BottomLeft (b l : Int)
  | BottomRight (b r : Int)
deriving DecidableEq, Inhabited

def MIN_REGION_SIZE : Rectangle := { w := 20, h := 20 }

def Region.area (r : Region) : Nat := r.size.w * r.size.h

def Region.top (r : Region) : Int := r.pos.y

def Region.bottom (r : Region) : Int := r.pos.y + (r.size.h : Int)

def Region.left (r : Region) : Int := r.pos.x

def Region.right (r : Region) : Int := r.pos.x + (r.size.w : Int)

/-- Region::set_top.  Returns the region after the call next to the error
    slot, mirroring mutation through the receiver reference: on error the
    original region is returned untouched. -/
def Region.set_top (r : Region) (new : Int) : Region × Option ErrorKind :=
  if new > r.bottom - (MIN_REGION_SIZE.h : Int) then
    (r, some ErrorKind.InvalidRegion)
  else
    ({ r with
        size := { r.size with h := (r.bottom - new).toNat }
        pos := { r.pos with y := new } }, none)

/-- Region::set_bottom. -/
def Region.set_bottom (r : Region) (new : Int) : Region × Option ErrorKind :=
  if new < r.top + (MIN_REGION_SIZE.h : Int) then
    (r, some ErrorKind.InvalidRegion)
  else
    ({ r with size := { r.size with h := (new - r.top).toNat } }, none)

/-- Region::set_left. -/
def Region.set_left (r : Region) (new : Int) : Region × Option ErrorKind :=
  if new > r.right - (MIN_REGION_SIZE.w : Int) then
    (r, some ErrorKind.InvalidRegion)
  else
    ({ r with
        size := { r.size with w := (r.right - new).toNat }
        pos := { r.pos with x := new } }, none)

/-- Region::set_right. -/
def Region.set_right (r : Region) (new : Int) : Region × Option ErrorKind :=
  if new < r.left + (MIN_REGION_SIZE.w : Int) then
    (r, some ErrorKind.InvalidRegion)
  else
    ({ r with size := { r.size with w := (new - r.left).toNat } }, none)

/-- Workspace::new: one region covering the whole workspace rectangle. -/
def Workspace.new (size : Rectangle) : Workspace :=
  { size := size
    regions := [{ size := size, pos := { x := 0, y := 0 }, float := false }] }

/-- The geometric core of Workspace::create_region: from the sibling region
    compute the updated sibling and the freshly appended region, following
    the four match arms of the source in statement order. -/
def splitRegions (sib : Region) (d : Direction) : Region × Region :=
  match d with
  | Direction.Up =>
      let region := { sib with size := { sib.size with h := sib.size.h / 2 } }
      let sibling := { sib with size := { sib.size with h := sib.size.h / 2 + sib.size.h % 2 } }
      let sibling := { sibling with pos := { sibling.pos with y := sibling.pos.y + (region.size.h : Int) } }
      (sibling, region)
  | Direction.Down =>
      let region := { sib with size := { sib.size with h := sib.size.h / 2 } }
      let sibling := { sib with size := { sib.size with h := sib.size.h / 2 + sib.size.h % 2 } }
      let region := { region with pos := { region.pos with y := region.pos.y + (sibling.size.h : Int) } }
      (sibling, region)
  | Direction.Left =>
      let region := { sib with size := { sib.size with w := sib.size.w / 2 } }
      let sibling := { sib with size := { sib.size with w := sib.size.w / 2 + sib.size.w % 2 } }
      let sibling := { sibling with pos := { sibling.pos with x := sibling.pos.x + (region.size.w : Int) } }
      (sibling, region)
  | Direction.Right =>
      let region := { sib with size := { sib.size with w := sib.size.w / 2 } }
      let sibling := { sib with size := { sib.size with w := sib.size.w / 2 + sib.size.w % 2 } }
      let region := { region with pos := { region.pos with x := region.pos.x + (sibling.size.w : Int) } }
      (sibling, region)

/-- Workspace::create_region.  `i` is the index of the aliased sibling
    reference; the new region is appended and its index returned. -/
def Workspace.create_region (ws : Workspace) (i : Nat) (d : Direction) : Workspace × Nat :=
  let sib := ws.regions.getD i default
  let sr := splitRegions sib d
  let regions := ws.regions.set i sr.1 ++ [sr.2]
  ({ ws with regions := regions }, regions.length - 1)

/-- The per-direction edge test of Workspace::shared_edge_regions. -/
def edgeTest (d : Direction) (region sib : Region) : Bool :=
  match d with
  | Direction.Up => region.top - sib.bottom == 1
  | Direction.Down => region.bottom - sib.top == 1
  | Direction.Left => region.left - sib.right == 1
  | Direction.Right => region.right - sib.left == 1

/-- Workspace::shared_edge_regions. -/
def Workspace.shared_edge_regions (ws : Workspace) (region : Region) (d : Direction) : List Nat :=
  ws.regions.enum.filterMap fun p =>
    if edgeTest d region p.2 then some p.1 else none

/-- The cross-axis test of Workspace::adjacent_regions. -/
def crossTest (d : Direction) (region sib : Region) : Bool :=
  match d with
  | Direction.Up | Direction.Down =>
      (decide (sib.left ≥ region.left) && decide (sib.left ≤ region.right)) ||
        (decide (sib.right ≤ region.right) && decide (sib.right ≥ region.left))
  | Direction.Left | Direction.Right =>
      (decide (sib.top ≥ region.top) && decide (sib.top ≤ region.bottom)) ||
        (decide (sib.bottom ≤ region.bottom) && decide (sib.bottom ≥ region.top))

/-- Workspace::adjacent_regions. -/
def Workspace.adjacent_regions (ws : Workspace) (region : Region) (d : Direction) : List Nat :=
  (ws.shared_edge_regions region d).filter fun index =>
    crossTest d region (ws.regions.getD index default)

/-- The overlap key of Workspace::major_adjacent_region. -/
def Workspace.overlapKey (ws : Workspace) (region : Region) (d : Direction) (index : Nat) : Nat :=
  let sibling := ws.regions.getD index default
  match d with
  | Direction.Up | Direction.Down =>
      (max sibling.left region.left - min sibling.right region.right).natAbs
  | Direction.Left | Direction.Right =>
      (max sibling.top region.top - min sibling.bottom region.bottom).natAbs

/-- One comparison step of Iterator::max_by_key: on an equal key the later
    element replaces the accumulator. -/
def maxStep (acc y : Nat × Nat) : Nat × Nat :=
  if acc.2 ≤ y.2 then y else acc

/-- Iterator::max_by_key of the Rust standard library: among elements with
    equal keys the last one wins. -/
def maxByKeyLast (l : List (Nat × Nat)) : Option (Nat × Nat) :=
  match l with
  | [] => none
  | x :: xs => some (xs.foldl maxStep x)

/-- Workspace::major_adjacent_region. -/
def Workspace.major_adjacent_region (ws : Workspace) (region : Region) (d : Direction) : Option Nat :=
  (maxByKeyLast ((ws.adjacent_regions region d).map fun index =>
    (index, ws.overlapKey region d index))).map Prod.fst

/-- The cascading for-loop of Workspace::resize_region: apply `f` to each
    listed sibling in order, stopping at the first error and keeping the
    mutations already applied. -/
def Workspace.cascade (ws : Workspace) (idxs : List Nat) (f : Region → Region × Option ErrorKind) :
    Workspace × Option ErrorKind :=
  match idxs with
  | [] => (ws, none)
  | j :: rest =>
      let sib := ws.regions.getD j default
      match f sib with
      | (_, some e) => (ws, some e)
      | (sib2, none) =>
          Workspace.cascade { ws with regions := ws.regions.set j sib2 } rest f

def Resize.rank : Resize → Nat
  | Resize.Top _ | Resize.Bottom _ | Resize.Left _ | Resize.Right _ => 0
  | _ => 1

/-- Workspace::resize_region.  `i` is the index of the aliased region
    reference; the workspace after the call is returned next to the error
    slot (a failed call keeps the mutations applied before the failure). -/
def Workspace.resize_region (ws : Workspace) (i : Nat) (rz : Resize) : Workspace × Option ErrorKind :=
  match rz with
  | Resize.Top t =>
      let region := ws.regions.getD i default
      match region.set_top (region.top + t) with
      | (_, some e) => (ws, some e)
      | (r2, none) =>
          let ws1 : Workspace := { ws with regions := ws.regions.set i r2 }
          Workspace.cascade ws1 (ws1.adjacent_regions r2 Direction.Up)
            (fun sib => sib.set_bottom (sib.bottom - t))
  | Resize.Bottom b =>
      let region := ws.regions.getD i default
      match region.set_bottom (region.bottom + b) with
      | (_, some e) => (ws, some e)
      | (r2, none) =>
          let ws1 : Workspace := { ws with regions := ws.regions.set i r2 }
          Workspace.cascade ws1 (ws1.adjacent_regions r2 Direction.Down)
            (fun sib => sib.set_top (sib.top - b))
  | Resize.Left l =>
      let region := ws.regions.getD i default
      match region.set_left (region.left + l) with
      | (_, some e) => (ws, some e)
      | (r2, none) =>
          let ws1 : Workspace := { ws with regions := ws.regions.set i r2 }
          Workspace.cascade ws1 (ws1.adjacent_regions r2 Direction.Left)
            (fun sib => sib.set_right (sib.right - l))
  | Resize.Right r =>
      let region := ws.regions.getD i default
      match region.set_right (region.right + r) with
      | (_, some e) => (ws, some e)
      | (r2, none) =>
          let ws1 : Workspace := { ws with regions := ws.regions.set i r2 }
          Workspace.cascade ws1 (ws1.adjacent_regions r2 Direction.Right)
            (fun sib => sib.set_left (sib.left - r))
  | Resize.TopLeft t l =>
      match ws.resize_region i (Resize.Top t) with
      | (ws1, some e) => (ws1, some e)
      | (ws1, none) => ws1.resize_region i (Resize.Left l)
  | Resize.TopRight t r =>
      match ws.resize_region i (Resize.Top t) with
      | (ws1, some e) => (ws1, some e)
      | (ws1, none) => ws1.resize_region i (Resize.Right r)
  | Resize.BottomLeft b l =>
      match ws.resize_region i (Resize.Bottom b) with
      | (ws1, some e) => (ws1, some e)
      | (ws1, none) => ws1.resize_region i (Resize.Left l)
  | Resize.BottomRight b r =>
      match ws.resize_region i (Resize.Bottom b) with
      | (ws1, some e) => (ws1, some e)
      | (ws1, none) => ws1.resize_region i (Resize.Right r)
termination_by rz.rank
decreasing_by all_goals simp [Resize.rank]

/-- Workspace::swap_region.  `i` is the index of the aliased region
    reference; on success the sizes and positions of the region and the
    selected neighbor are exchanged in place. -/
def Workspace.swap_region (ws : Workspace) (i : Nat) (d : Direction) : Workspace × Option ErrorKind :=
  let region := ws.regions.getD i default
  match ws.major_adjacent_region region d with
  | none => (ws, some ErrorKind.NoAdjacentRegions)
  | some index =>
      let sibling := ws.regions.getD index default
      let region2 := { region with size := sibling.size, pos := sibling.pos }
      let sibling2 := { sibling with size := region.size, pos := region.pos }
      ({ ws with regions := (ws.regions.set i region2).set index sibling2 }, none)

/- ------------------------------------------------------------------ -/
/- Characterizations of the adjacency queries.                         -/
/- ------------------------------------------------------------------ -/

theorem mem_shared_iff (ws : Workspace) (region : Region) (d : Direction) (j : Nat) :
    j ∈ ws.shared_edge_regions region d ↔
      ∃ sib, ws.regions[j]? = some sib ∧ edgeTest d region sib = true := by
  unfold Workspace.shared_edge_regions
  rw [List.mem_filterMap]
  constructor
  · rintro ⟨⟨k, sib⟩, hmem, hf⟩
    by_cases h : edgeTest d region sib = true
    · simp only [h, if_true] at hf
      cases hf
      exact ⟨sib, (List.mem_enum_iff_getElem?).1 hmem, h⟩
    · simp [h] at hf
  · rintro ⟨sib, hget, ht⟩
    exact ⟨(j, sib), (List.mem_enum_iff_getElem?).2 hget, by simp [ht]⟩

theorem mem_adjacent_iff (ws : Workspace) (region : Region) (d : Direction) (j : Nat) :
    j ∈ ws.adjacent_regions region d ↔
      j ∈ ws.shared_edge_regions region d ∧
        crossTest d region (ws.regions.getD j default) = true := by
  unfold Workspace.adjacent_regions
  exact List.mem_filter

theorem lt_length_of_mem_shared (ws : Workspace) (region : Region) (d : Direction) (j : Nat)
    (h : j ∈ ws.shared_edge_regions region d) : j < ws.regions.length := by
  obtain ⟨sib, hget, -⟩ := (mem_shared_iff ws region d j).1 h
  by_contra hlt
  rw [List.getElem?_eq_none (by omega)] at hget
  cases hget

/- ------------------------------------------------------------------ -/
/- C5: single-edge mutators.                                           -/
/- ------------------------------------------------------------------ -/

/-- C5: each set_* mutator fails with InvalidRegion exactly when the new
    coordinate would leave less than the minimum extent on its axis
    (set_top: new > bottom - MIN_H; set_bottom: new < top + MIN_H;
    set_left and set_right analogously on width); a failing call returns
    the region unchanged, and a succeeding call moves only the named edge
    while the opposite edge, the other two edges and the float flag stay
    fixed. -/
theorem setEdgeSpec (r : Region) (v : Int) :
    ((r.set_top v).2 = some ErrorKind.InvalidRegion ↔ v > r.bottom - (MIN_REGION_SIZE.h : Int)) ∧
      ((r.set_top v).2 ≠ none → (r.set_top v).1 = r) ∧
      ((r.set_top v).2 = none → (r.set_top v).1.top = v ∧ (r.set_top v).1.bottom = r.bottom ∧
        (r.set_top v).1.left = r.left ∧ (r.set_top v).1.right = r.right ∧
        (r.set_top v).1.float = r.float) ∧
    ((r.set_bottom v).2 = some ErrorKind.InvalidRegion ↔ v < r.top + (MIN_REGION_SIZE.h : Int)) ∧
      ((r.set_bottom v).2 ≠ none → (r.set_bottom v).1 = r) ∧
      ((r.set_bottom v).2 = none → (r.set_bottom v).1.bottom = v ∧ (r.set_bottom v).1.top = r.top ∧
        (r.set_bottom v).1.left = r.left ∧ (r.set_bottom v).1.right = r.right ∧
        (r.set_bottom v).1.float = r.float) ∧
    ((r.set_left v).2 = some ErrorKind.InvalidRegion ↔ v > r.right - (MIN_REGION_SIZE.w : Int)) ∧
      ((r.set_left v).2 ≠ none → (r.set_left v).1 = r) ∧
      ((r.set_left v).2 = none → (r.set_left v).1.left = v ∧ (r.set_left v).1.right = r.right ∧
        (r.set_left v).1.top = r.top ∧ (r.set_left v).1.bottom = r.bottom ∧
        (r.set_left v).1.float = r.float) ∧
    ((r.set_right v).2 = some ErrorKind.InvalidRegion ↔ v < r.left + (MIN_REGION_SIZE.w : Int)) ∧
      ((r.set_right v).2 ≠ none → (r.set_right v).1 = r) ∧
      ((r.set_right v).2 = none → (r.set_right v).1.right = v ∧ (r.set_right v).1.left = r.left ∧
        (r.set_right v).1.top = r.top ∧ (r.set_right v).1.bottom = r.bottom ∧
        (r.set_right v).1.float = r.float) := by
  unfold Region.set_top Region.set_bottom Region.set_left Region.set_right
  refine ⟨?_, ?_, ?_, ?_, ?_, ?_, ?_, ?_, ?_, ?_, ?_, ?_⟩ <;>
    [skip; skip; skip; skip; skip; skip; skip; skip; skip; skip; skip; skip] <;>
    split <;>
    simp_all [Region.top, Region.bottom, Region.left, Region.right, MIN_REGION_SIZE] <;>
    omega

def r0 : Region := { size := { w := 100, h := 100 }, pos := { x := 0, y := 0 }, float := false }

/-- Witness for C5 at a concrete region: set_top 30 succeeds and moves only
    the top edge; set_bottom 10 fails and leaves the region unchanged. -/
theorem setEdgeSpec_witness :
    (r0.set_top 30).1.top = 30 ∧ (r0.set_top 30).1.bottom = r0.bottom ∧
    (r0.set_bottom 10).2 = some ErrorKind.InvalidRegion ∧ (r0.set_bottom 10).1 = r0 := by
  have h30 := setEdgeSpec r0 30
  have h10 := setEdgeSpec r0 10
  refine ⟨(h30.2.2.1 (by decide)).1, (h30.2.2.1 (by decide)).2.1, ?_, ?_⟩
  · exact h10.2.2.2.1.mpr (by decide)
  · exact h10.2.2.2.2.1 (by decide)

/- ------------------------------------------------------------------ -/
/- C7: what the adjacency queries actually return.                     -/
/- ------------------------------------------------------------------ -/

def regionC7 : Region := { size := { w := 100, h := 20 }, pos := { x := 0, y := 50 }, float := false }

def sibC7 : Region := { size := { w := 50, h := 200 }, pos := { x := 99, y := 0 }, float := false }

def wsC7 : Workspace := { size := { w := 300, h := 200 }, regions := [regionC7, sibC7] }

/-- C7 counterexample: sibC7 touches the right edge of regionC7 under the
    1-unit convention and its vertical span [0,200] strictly contains the
    vertical span [50,70] of regionC7 (so the spans overlap), yet
    adjacent_regions does not return it: the filter only accepts a sibling
    one of whose span endpoints lies inside the span of the region. -/
theorem adjacentMissesContainment :
    1 ∈ wsC7.shared_edge_regions regionC7 Direction.Right ∧
    max sibC7.top regionC7.top ≤ min sibC7.bottom regionC7.bottom ∧
    1 ∉ wsC7.adjacent_regions regionC7 Direction.Right := by decide

/-- C7 amended: shared_edge_regions returns exactly the indices of regions
    whose relevant edge is exactly 1 coordinate unit from the edge of the
    region in that direction, and adjacent_regions returns exactly the
    subset of those one of whose cross-axis span endpoints lies inside the
    cross-axis span of the region (inclusive at both ends); a sibling whose
    span strictly contains the span of the region is not returned. -/
theorem adjacencyCharacterization (ws : Workspace) (region : Region) (d : Direction) (j : Nat) :
    (j ∈ ws.shared_edge_regions region d ↔
       ∃ sib, ws.regions[j]? = some sib ∧ edgeTest d region sib = true) ∧
    (j ∈ ws.adjacent_regions region d ↔
       ∃ sib, ws.regions[j]? = some sib ∧ edgeTest d region sib = true ∧
         crossTest d region sib = true) := by
  refine ⟨mem_shared_iff ws region d j, ?_⟩
  rw [mem_adjacent_iff, mem_shared_iff]
  constructor
  · rintro ⟨⟨sib, hget, he⟩, hc⟩
    refine ⟨sib, hget, he, ?_⟩
    rwa [List.getD_eq_getElem?_getD, hget] at hc
  · rintro ⟨sib, hget, he, hc⟩
    exact ⟨⟨sib, hget, he⟩, by rwa [List.getD_eq_getElem?_getD, hget]⟩

/-- Witness for C7 at a concrete workspace: the characterization applied at
    wsC7 yields the shared-edge membership of sibC7. -/
theorem adjacencyCharacterization_witness :
    1 ∈ wsC7.shared_edge_regions regionC7 Direction.Right :=
  (adjacencyCharacterization wsC7 regionC7 Direction.Right 1).1.mpr ⟨sibC7, by decide, by decide⟩

/- ------------------------------------------------------------------ -/
/- C6: adjacency is not symmetric.                                     -/
/- ------------------------------------------------------------------ -/

def regA : Region := { size := { w := 100, h := 100 }, pos := { x := 0, y := 0 }, float := false }

def regB : Region := { size := { w := 100, h := 100 }, pos := { x := 99, y := 0 }, float := false }

def wsAB : Workspace := { size := { w := 300, h := 100 }, regions := [regA, regB] }

/-- C6 counterexample: regA and regB share the 1-unit offset of the code
    (regA.right - regB.left = 1) and their vertical spans coincide, regB is
    returned by adjacent_regions regA Right, yet regA is not returned by
    adjacent_regions regB Left, refuting the claimed equivalence. -/
theorem adjacencyNotSymmetric :
    regA.right - regB.left = 1 ∧
    max regA.top regB.top ≤ min regA.bottom regB.bottom ∧
    1 ∈ wsAB.adjacent_regions regA Direction.Right ∧
    0 ∉ wsAB.adjacent_regions regB Direction.Left := by decide

/-- C6 amended: adjacency in the code is never mutual: the Right query from
    A requires A.right - B.left = 1 while the Left query from B requires
    B.left - A.right = 1, so membership of B in adjacent_regions A Right
    excludes membership of A in adjacent_regions B Left (and Up/Down
    likewise). -/
theorem adjacencyAntisymmetric (ws : Workspace) (iA iB : Nat) (A B : Region)
    (hA : ws.regions[iA]? = some A) (hB : ws.regions[iB]? = some B) :
    (iB ∈ ws.adjacent_regions A Direction.Right → iA ∉ ws.adjacent_regions B Direction.Left) ∧
    (iB ∈ ws.adjacent_regions A Direction.Up → iA ∉ ws.adjacent_regions B Direction.Down) := by
  constructor
  · intro hAB hBA
    obtain ⟨sib, hget, he, -⟩ := ((adjacencyCharacterization ws A Direction.Right iB).2).1 hAB
    obtain ⟨sib2, hget2, he2, -⟩ := ((adjacencyCharacterization ws B Direction.Left iA).2).1 hBA
    rw [hB] at hget
    rw [hA] at hget2
    cases hget
    cases hget2
    simp only [edgeTest, beq_iff_eq] at he he2
    omega
  · intro hAB hBA
    obtain ⟨sib, hget, he, -⟩ := ((adjacencyCharacterization ws A Direction.Up iB).2).1 hAB
    obtain ⟨sib2, hget2, he2, -⟩ := ((adjacencyCharacterization ws B Direction.Down iA).2).1 hBA
    rw [hB] at hget
    rw [hA] at hget2
    cases hget
    cases hget2
    simp only [edgeTest, beq_iff_eq] at he he2
    omega

/-- Witness for C6 amended at a concrete workspace. -/
theorem adjacencyAntisymmetric_witness :
    0 ∉ wsAB.adjacent_regions regB Direction.Left :=
  (adjacencyAntisymmetric wsAB 0 1 regA regB (by decide) (by decide)).1 (by decide)

/- ------------------------------------------------------------------ -/
/- C10: the tie-break of major_adjacent_region.                        -/
/- ------------------------------------------------------------------ -/

theorem fst_lt_of_mem_enumFrom {α : Type} (l : List α) (n : Nat) (p : Nat × α)
    (h : p ∈ List.enumFrom n l) : n ≤ p.1 := by
  induction l generalizing n with
  | nil => cases h
  | cons x xs ih =>
      rw [List.enumFrom_cons] at h
      rcases List.mem_cons.1 h with h2 | h2
      · rw [h2]
      · have := ih (n + 1) h2
        omega

theorem pairwise_fst_enumFrom {α : Type} (l : List α) (n : Nat) :
    (List.enumFrom n l).Pairwise (fun a b => a.1 < b.1) := by
  induction l generalizing n with
  | nil => exact List.Pairwise.nil
  | cons x xs ih =>
      rw [List.enumFrom_cons]
      refine List.Pairwise.cons ?_ (ih (n + 1))
      intro p hp
      have := fst_lt_of_mem_enumFrom xs (n + 1) p hp
      omega

theorem pairwise_lt_shared (ws : Workspace) (region : Region) (d : Direction) :
    (ws.shared_edge_regions region d).Pairwise (· < ·) := by
  unfold Workspace.shared_edge_regions
  rw [List.pairwise_filterMap]
  refine (pairwise_fst_enumFrom ws.regions 0).imp ?_
  intro a b hab j hj k hk
  split at hj
  · cases hj
    split at hk
    · cases hk
      exact hab
    · cases hk
  · cases hj

theorem pairwise_lt_adjacent (ws : Workspace) (region : Region) (d : Direction) :
    (ws.adjacent_regions region d).Pairwise (· < ·) :=
  (pairwise_lt_shared ws region d).filter _


theorem foldl_maxStep_spec (l : List (Nat × Nat)) (x : Nat × Nat)
    (hp : (x :: l).Pairwise (fun a b => a.1 < b.1)) :
    l.foldl maxStep x ∈ x :: l ∧
      (∀ y ∈ x :: l, y.2 ≤ (l.foldl maxStep x).2) ∧
      (∀ y ∈ x :: l, y.2 = (l.foldl maxStep x).2 → y.1 ≤ (l.foldl maxStep x).1) := by
  induction l generalizing x with
  | nil =>
      simp
  | cons z t ih =>
      rcases List.pairwise_cons.1 hp with ⟨hx, hzt⟩
      have hxz : x.1 < z.1 := hx z (List.mem_cons_self z t)
      have hp2 : (maxStep x z :: t).Pairwise (fun a b => a.1 < b.1) := by
        rcases List.pairwise_cons.1 hzt with ⟨hz, ht⟩
        refine List.pairwise_cons.2 ⟨?_, ht⟩
        intro y hy
        unfold maxStep
        split
        · exact hz y hy
        · exact lt_trans hxz (hz y hy)
      obtain ⟨hmem, hb, htie⟩ := ih (maxStep x z) hp2
      have hhead := hb (maxStep x z) (List.mem_cons_self _ t)
      have hge : x.2 ≤ (maxStep x z).2 ∧ z.2 ≤ (maxStep x z).2 := by
        unfold maxStep
        split
        · exact ⟨by omega, le_refl _⟩
        · exact ⟨le_refl _, by omega⟩
      have hcases : maxStep x z = z ∨ maxStep x z = x := by
        unfold maxStep
        split
        · exact Or.inl rfl
        · exact Or.inr rfl
      have hfold : (z :: t).foldl maxStep x = t.foldl maxStep (maxStep x z) := rfl
      refine ⟨?_, ?_, ?_⟩
      · rw [hfold]
        rcases List.mem_cons.1 hmem with h | h
        · rw [h]
          rcases hcases with hc | hc
          · rw [hc]
            exact List.mem_cons_of_mem x (List.mem_cons_self z t)
          · rw [hc]
            exact List.mem_cons_self x (z :: t)
        · exact List.mem_cons_of_mem x (List.mem_cons_of_mem z h)
      · intro y hy
        rw [hfold]
        rcases List.mem_cons.1 hy with h | h
        · subst h
          omega
        · rcases List.mem_cons.1 h with h2 | h2
          · subst h2
            omega
          · exact hb y (List.mem_cons_of_mem _ h2)
      · intro y hy heq
        rw [hfold] at heq ⊢
        have ht1 := htie (maxStep x z) (List.mem_cons_self _ t)
        rcases List.mem_cons.1 hy with h | h
        · subst h
          by_cases hc : y.2 ≤ z.2
          · have he : maxStep y z = z := by
              unfold maxStep
              simp [hc]
            have h1 : (maxStep y z).1 = z.1 := by rw [he]
            have h2 : (maxStep y z).2 = z.2 := by rw [he]
            have h3 := ht1 (by omega)
            omega
          · have he : maxStep y z = y := by
              unfold maxStep
              simp [hc]
            have h1 : (maxStep y z).1 = y.1 := by rw [he]
            have h2 : (maxStep y z).2 = y.2 := by rw [he]
            have h3 := ht1 (by omega)
            omega
        · rcases List.mem_cons.1 h with h2m | h2m
          · subst h2m
            by_cases hc : x.2 ≤ y.2
            · have he : maxStep x y = y := by
                unfold maxStep
                simp [hc]
              have h1 : (maxStep x y).1 = y.1 := by rw [he]
              have h2 : (maxStep x y).2 = y.2 := by rw [he]
              have h3 := ht1 (by omega)
              omega
            · have he : maxStep x y = x := by
                unfold maxStep
                simp [hc]
              have h2 : (maxStep x y).2 = x.2 := by rw [he]
              omega
          · exact htie y (List.mem_cons_of_mem _ h2m) heq

/-- C10: major_adjacent_region is a pure function of the workspace, the
    region and the direction, and whenever it returns an index j, j is
    adjacent, its overlap key is maximal, and every other adjacent index
    whose key ties with j is smaller: on a tie the candidate with the
    greatest sequence index wins, because Iterator::max_by_key keeps the
    last maximal element and the candidates are scanned in index order. -/
theorem majorTieBreak (ws : Workspace) (region : Region) (d : Direction) (j : Nat)
    (h : ws.major_adjacent_region region d = some j) :
    j ∈ ws.adjacent_regions region d ∧
      ∀ k ∈ ws.adjacent_regions region d,
        ws.overlapKey region d k ≤ ws.overlapKey region d j ∧
          (ws.overlapKey region d k = ws.overlapKey region d j → k ≤ j) := by
  have hpw : ((ws.adjacent_regions region d).map
      (fun index => (index, ws.overlapKey region d index))).Pairwise
      (fun a b => a.1 < b.1) := by
    refine List.Pairwise.map _ ?_ (pairwise_lt_adjacent ws region d)
    intro a b hab
    simpa using hab
  unfold Workspace.major_adjacent_region at h
  rcases hadj : ws.adjacent_regions region d with _ | ⟨a, rest⟩
  · rw [hadj] at h
    simp [maxByKeyLast] at h
  · rw [hadj, List.map_cons] at h hpw
    simp only [maxByKeyLast, Option.map_some'] at h
    rw [Option.some_inj] at h
    obtain ⟨hmem, hb, htie⟩ := foldl_maxStep_spec
      (rest.map (fun index => (index, ws.overlapKey region d index)))
      (a, ws.overlapKey region d a) hpw
    have hex : ∃ k0, k0 ∈ a :: rest ∧ (k0, ws.overlapKey region d k0) =
        (rest.map (fun index => (index, ws.overlapKey region d index))).foldl maxStep
          (a, ws.overlapKey region d a) := by
      rcases List.mem_cons.1 hmem with hF | hF
      · exact ⟨a, List.mem_cons_self a rest, hF.symm⟩
      · obtain ⟨k0, hk0, hfk0⟩ := List.mem_map.1 hF
        exact ⟨k0, List.mem_cons_of_mem a hk0, hfk0⟩
    obtain ⟨k0, hk0, hfk0⟩ := hex
    have hj : k0 = j := by
      rw [← h, ← hfk0]
    have hF2 : ((rest.map (fun index => (index, ws.overlapKey region d index))).foldl maxStep
        (a, ws.overlapKey region d a)).2 = ws.overlapKey region d j := by
      rw [← hfk0]
      rw [hj]
    constructor
    · rw [← hj]
      exact hk0
    · intro k hk
      have hkmem : (k, ws.overlapKey region d k) ∈
          (a, ws.overlapKey region d a) ::
            rest.map (fun index => (index, ws.overlapKey region d index)) := by
        rcases List.mem_cons.1 hk with hka | hka
        · subst hka
          exact List.mem_cons_self _ _
        · exact List.mem_cons_of_mem _ (List.mem_map_of_mem _ hka)
      have h1 := hb _ hkmem
      have h2 := htie _ hkmem
      rw [hF2] at h1 h2
      refine ⟨h1, ?_⟩
      intro heq
      have h3 := h2 heq
      rw [h] at h3
      exact h3

def regR : Region := { size := { w := 100, h := 100 }, pos := { x := 0, y := 0 }, float := false }

def regS1 : Region := { size := { w := 50, h := 40 }, pos := { x := 99, y := 0 }, float := false }

def regS2 : Region := { size := { w := 50, h := 40 }, pos := { x := 99, y := 60 }, float := false }

def wsTie : Workspace := { size := { w := 300, h := 100 }, regions := [regR, regS1, regS2] }

/-- Witness for C10: regS1 and regS2 both touch the right edge of regR with
    overlap key 40; major_adjacent_region returns index 2, the greater of
    the tied candidates. -/
theorem majorTieBreak_witness :
    2 ∈ wsTie.adjacent_regions regR Direction.Right ∧
      ∀ k ∈ wsTie.adjacent_regions regR Direction.Right,
        wsTie.overlapKey regR Direction.Right k ≤ wsTie.overlapKey regR Direction.Right 2 ∧
          (wsTie.overlapKey regR Direction.Right k = wsTie.overlapKey regR Direction.Right 2 →
            k ≤ 2) :=
  majorTieBreak wsTie regR Direction.Right 2 (by decide)

/- ------------------------------------------------------------------ -/
/- C4: minimum-size enforcement.                                       -/
/- ------------------------------------------------------------------ -/

/-- Both extents of the region are at least the minimum tile size. -/
def Region.minOK (r : Region) : Prop :=
  MIN_REGION_SIZE.w ≤ r.size.w ∧ MIN_REGION_SIZE.h ≤ r.size.h

instance (r : Region) : Decidable r.minOK :=
  inferInstanceAs (Decidable (MIN_REGION_SIZE.w ≤ r.size.w ∧ MIN_REGION_SIZE.h ≤ r.size.h))

theorem set_top_axis (r : Region) (v : Int) (hs : (r.set_top v).2 = none) :
    MIN_REGION_SIZE.h ≤ (r.set_top v).1.size.h ∧ (r.set_top v).1.size.w = r.size.w := by
  unfold Region.set_top at hs ⊢
  split at hs
  · simp at hs
  · rename_i hc
    rw [if_neg hc]
    simp only [Region.bottom, MIN_REGION_SIZE] at hc ⊢
    constructor
    · omega
    · trivial

theorem set_bottom_axis (r : Region) (v : Int) (hs : (r.set_bottom v).2 = none) :
    MIN_REGION_SIZE.h ≤ (r.set_bottom v).1.size.h ∧ (r.set_bottom v).1.size.w = r.size.w := by
  unfold Region.set_bottom at hs ⊢
  split at hs
  · simp at hs
  · rename_i hc
    rw [if_neg hc]
    simp only [Region.top, MIN_REGION_SIZE] at hc ⊢
    constructor
    · omega
    · trivial

theorem set_left_axis (r : Region) (v : Int) (hs : (r.set_left v).2 = none) :
    MIN_REGION_SIZE.w ≤ (r.set_left v).1.size.w ∧ (r.set_left v).1.size.h = r.size.h := by
  unfold Region.set_left at hs ⊢
  split at hs
  · simp at hs
  · rename_i hc
    rw [if_neg hc]
    simp only [Region.right, MIN_REGION_SIZE] at hc ⊢
    constructor
    · omega
    · trivial

theorem set_right_axis (r : Region) (v : Int) (hs : (r.set_right v).2 = none) :
    MIN_REGION_SIZE.w ≤ (r.set_right v).1.size.w ∧ (r.set_right v).1.size.h = r.size.h := by
  unfold Region.set_right at hs ⊢
  split at hs
  · simp at hs
  · rename_i hc
    rw [if_neg hc]
    simp only [Region.left, MIN_REGION_SIZE] at hc ⊢
    constructor
    · omega
    · trivial

theorem set_top_minOK (r : Region) (v : Int) (h : r.minOK) (hs : (r.set_top v).2 = none) :
    (r.set_top v).1.minOK := by
  obtain ⟨h1, h2⟩ := set_top_axis r v hs
  exact ⟨by rw [h2]; exact h.1, h1⟩

theorem set_bottom_minOK (r : Region) (v : Int) (h : r.minOK) (hs : (r.set_bottom v).2 = none) :
    (r.set_bottom v).1.minOK := by
  obtain ⟨h1, h2⟩ := set_bottom_axis r v hs
  exact ⟨by rw [h2]; exact h.1, h1⟩

theorem set_left_minOK (r : Region) (v : Int) (h : r.minOK) (hs : (r.set_left v).2 = none) :
    (r.set_left v).1.minOK := by
  obtain ⟨h1, h2⟩ := set_left_axis r v hs
  exact ⟨h1, by rw [h2]; exact h.2⟩

theorem set_right_minOK (r : Region) (v : Int) (h : r.minOK) (hs : (r.set_right v).2 = none) :
    (r.set_right v).1.minOK := by
  obtain ⟨h1, h2⟩ := set_right_axis r v hs
  exact ⟨h1, by rw [h2]; exact h.2⟩

theorem getD_mem_of_lt (l : List Region) (j : Nat) (hj : j < l.length) :
    l.getD j default ∈ l := by
  rw [List.getD_eq_getElem?_getD, List.getElem?_eq_getElem hj]
  exact List.getElem_mem hj

theorem cascade_minOK (f : Region → Region × Option ErrorKind)
    (hf : ∀ s, s.minOK → (f s).2 = none → (f s).1.minOK) :
    ∀ (idxs : List Nat) (ws : Workspace), (∀ r ∈ ws.regions, r.minOK) →
      ∀ r ∈ (ws.cascade idxs f).1.regions, r.minOK := by
  intro idxs
  induction idxs with
  | nil =>
      intro ws hws
      exact hws
  | cons j rest ih =>
      intro ws hws r hr
      rcases hfs : f (ws.regions.getD j default) with ⟨sib2, err⟩
      cases err with
      | some e =>
          simp only [Workspace.cascade, hfs] at hr
          exact hws r hr
      | none =>
          simp only [Workspace.cascade, hfs] at hr
          by_cases hj : j < ws.regions.length
          · refine ih { ws with regions := ws.regions.set j sib2 } ?_ r hr
            intro s hs
            rcases List.mem_or_eq_of_mem_set hs with h | h
            · exact hws s h
            · subst h
              have hmin := hf (ws.regions.getD j default)
                (hws _ (getD_mem_of_lt ws.regions j hj)) (by rw [hfs])
              rw [hfs] at hmin
              exact hmin
          · rw [List.set_eq_of_length_le (le_of_not_lt hj)] at hr
            exact ih { ws with regions := ws.regions } hws r hr

theorem foldl_maxStep_mem (l : List (Nat × Nat)) (x : Nat × Nat) :
    l.foldl maxStep x ∈ x :: l := by
  induction l generalizing x with
  | nil => simp
  | cons z t ih =>
      have hstep := ih (maxStep x z)
      show t.foldl maxStep (maxStep x z) ∈ x :: z :: t
      rcases List.mem_cons.1 hstep with h | h
      · rw [h]
        unfold maxStep
        split
        · exact List.mem_cons_of_mem x (List.mem_cons_self z t)
        · exact List.mem_cons_self x (z :: t)
      · exact List.mem_cons_of_mem x (List.mem_cons_of_mem z h)

theorem major_mem_adjacent (ws : Workspace) (region : Region) (d : Direction) (j : Nat)
    (h : ws.major_adjacent_region region d = some j) : j ∈ ws.adjacent_regions region d := by
  unfold Workspace.major_adjacent_region at h
  rcases hadj : ws.adjacent_regions region d with _ | ⟨a, rest⟩
  · rw [hadj] at h
    simp [maxByKeyLast] at h
  · rw [hadj, List.map_cons] at h
    simp only [maxByKeyLast, Option.map_some'] at h
    rw [Option.some_inj] at h
    have hmem := foldl_maxStep_mem
      (rest.map (fun index => (index, ws.overlapKey region d index)))
      (a, ws.overlapKey region d a)
    rcases List.mem_cons.1 hmem with hF | hF
    · rw [← h, hF]
      exact List.mem_cons_self a rest
    · obtain ⟨k0, hk0, hfk0⟩ := List.mem_map.1 hF
      have : k0 = j := by
        rw [← h, ← hfk0]
      rw [← this]
      exact List.mem_cons_of_mem a hk0

theorem resize_top_minOK (ws : Workspace) (i : Nat) (t : Int)
    (hws : ∀ r ∈ ws.regions, r.minOK) :
    ∀ r ∈ (ws.resize_region i (Resize.Top t)).1.regions, r.minOK := by
  intro r hr
  rcases hset : (ws.regions.getD i default).set_top ((ws.regions.getD i default).top + t)
    with ⟨r2, err⟩
  unfold Workspace.resize_region at hr
  cases err with
  | some e =>
      simp only [hset] at hr
      exact hws r hr
  | none =>
      simp only [hset] at hr
      refine cascade_minOK _ (fun s hsmin hsnone => set_bottom_minOK s _ hsmin hsnone)
        _ _ ?_ r hr
      intro s hs
      by_cases hi : i < ws.regions.length
      · rcases List.mem_or_eq_of_mem_set hs with h | h
        · exact hws s h
        · subst h
          have hmin := set_top_minOK (ws.regions.getD i default) _
            (hws _ (getD_mem_of_lt ws.regions i hi)) (by rw [hset])
          rw [hset] at hmin
          exact hmin
      · rw [List.set_eq_of_length_le (le_of_not_lt hi)] at hs
        exact hws s hs

theorem resize_bottom_minOK (ws : Workspace) (i : Nat) (t : Int)
    (hws : ∀ r ∈ ws.regions, r.minOK) :
    ∀ r ∈ (ws.resize_region i (Resize.Bottom t)).1.regions, r.minOK := by
  intro r hr
  rcases hset : (ws.regions.getD i default).set_bottom ((ws.regions.getD i default).bottom + t)
    with ⟨r2, err⟩
  unfold Workspace.resize_region at hr
  cases err with
  | some e =>
      simp only [hset] at hr
      exact hws r hr
  | none =>
      simp only [hset] at hr
      refine cascade_minOK _ (fun s hsmin hsnone => set_top_minOK s _ hsmin hsnone)
        _ _ ?_ r hr
      intro s hs
      by_cases hi : i < ws.regions.length
      · rcases List.mem_or_eq_of_mem_set hs with h | h
        · exact hws s h
        · subst h
          have hmin := set_bottom_minOK (ws.regions.getD i default) _
            (hws _ (getD_mem_of_lt ws.regions i hi)) (by rw [hset])
          rw [hset] at hmin
          exact hmin
      · rw [List.set_eq_of_length_le (le_of_not_lt hi)] at hs
        exact hws s hs

theorem resize_left_minOK (ws : Workspace) (i : Nat) (t : Int)
    (hws : ∀ r ∈ ws.regions, r.minOK) :
    ∀ r ∈ (ws.resize_region i (Resize.Left t)).1.regions, r.minOK := by
  intro r hr
  rcases hset : (ws.regions.getD i default).set_left ((ws.regions.getD i default).left + t)
    with ⟨r2, err⟩
  unfold Workspace.resize_region at hr
  cases err with
  | some e =>
      simp only [hset] at hr
      exact hws r hr
  | none =>
      simp only [hset] at hr
      refine cascade_minOK _ (fun s hsmin hsnone => set_right_minOK s _ hsmin hsnone)
        _ _ ?_ r hr
      intro s hs
      by_cases hi : i < ws.regions.length
      · rcases List.mem_or_eq_of_mem_set hs with h | h
        · exact hws s h
        · subst h
          have hmin := set_left_minOK (ws.regions.getD i default) _
            (hws _ (getD_mem_of_lt ws.regions i hi)) (by rw [hset])
          rw [hset] at hmin
          exact hmin
      · rw [List.set_eq_of_length_le (le_of_not_lt hi)] at hs
        exact hws s hs

theorem resize_right_minOK (ws : Workspace) (i : Nat) (t : Int)
    (hws : ∀ r ∈ ws.regions, r.minOK) :
    ∀ r ∈ (ws.resize_region i (Resize.Right t)).1.regions, r.minOK := by
  intro r hr
  rcases hset : (ws.regions.getD i default).set_right ((ws.regions.getD i default).right + t)
    with ⟨r2, err⟩
  unfold Workspace.resize_region at hr
  cases err with
  | some e =>
      simp only [hset] at hr
      exact hws r hr
  | none =>
      simp only [hset] at hr
      refine cascade_minOK _ (fun s hsmin hsnone => set_left_minOK s _ hsmin hsnone)
        _ _ ?_ r hr
      intro s hs
      by_cases hi : i < ws.regions.length
      · rcases List.mem_or_eq_of_mem_set hs with h | h
        · exact hws s h
        · subst h
          have hmin := set_right_minOK (ws.regions.getD i default) _
            (hws _ (getD_mem_of_lt ws.regions i hi)) (by rw [hset])
          rw [hset] at hmin
          exact hmin
      · rw [List.set_eq_of_length_le (le_of_not_lt hi)] at hs
        exact hws s hs

theorem resize_minOK (ws : Workspace) (i : Nat) (rz : Resize)
    (hws : ∀ r ∈ ws.regions, r.minOK) :
    ∀ r ∈ (ws.resize_region i rz).1.regions, r.minOK := by
  cases rz with
  | Top t => exact resize_top_minOK ws i t hws
  | Bottom t => exact resize_bottom_minOK ws i t hws
  | Left t => exact resize_left_minOK ws i t hws
  | Right t => exact resize_right_minOK ws i t hws
  | TopLeft t l =>
      intro r hr
      unfold Workspace.resize_region at hr
      rcases h1 : ws.resize_region i (Resize.Top t) with ⟨ws1, err⟩
      have hws1 : ∀ r ∈ ws1.regions, r.minOK := by
        have := resize_top_minOK ws i t hws
        rw [h1] at this
        exact this
      cases err with
      | some e =>
          simp only [h1] at hr
          exact hws1 r hr
      | none =>
          simp only [h1] at hr
          exact resize_left_minOK ws1 i l hws1 r hr
  | TopRight t l =>
      intro r hr
      unfold Workspace.resize_region at hr
      rcases h1 : ws.resize_region i (Resize.Top t) with ⟨ws1, err⟩
      have hws1 : ∀ r ∈ ws1.regions, r.minOK := by
        have := resize_top_minOK ws i t hws
        rw [h1] at this
        exact this
      cases err with
      | some e =>
          simp only [h1] at hr
          exact hws1 r hr
      | none =>
          simp only [h1] at hr
          exact resize_right_minOK ws1 i l hws1 r hr
  | BottomLeft t l =>
      intro r hr
      unfold Workspace.resize_region at hr
      rcases h1 : ws.resize_region i (Resize.Bottom t) with ⟨ws1, err⟩
      have hws1 : ∀ r ∈ ws1.regions, r.minOK := by
        have := resize_bottom_minOK ws i t hws
        rw [h1] at this
        exact this
      cases err with
      | some e =>
          simp only [h1] at hr
          exact hws1 r hr
      | none =>
          simp only [h1] at hr
          exact resize_left_minOK ws1 i l hws1 r hr
  | BottomRight t l =>
      intro r hr
      unfold Workspace.resize_region at hr
      rcases h1 : ws.resize_region i (Resize.Bottom t) with ⟨ws1, err⟩
      have hws1 : ∀ r ∈ ws1.regions, r.minOK := by
        have := resize_bottom_minOK ws i t hws
        rw [h1] at this
        exact this
      cases err with
      | some e =>
          simp only [h1] at hr
          exact hws1 r hr
      | none =>
          simp only [h1] at hr
          exact resize_right_minOK ws1 i l hws1 r hr

theorem swap_minOK (ws : Workspace) (i : Nat) (d : Direction) (hi : i < ws.regions.length)
    (hws : ∀ r ∈ ws.regions, r.minOK) :
    ∀ r ∈ (ws.swap_region i d).1.regions, r.minOK := by
  intro r hr
  unfold Workspace.swap_region at hr
  rcases hmaj : ws.major_adjacent_region (ws.regions.getD i default) d with _ | idx
  · simp only [hmaj] at hr
    exact hws r hr
  · have hidx : idx < ws.regions.length :=
      lt_length_of_mem_shared ws _ d idx
        ((mem_adjacent_iff ws _ d idx).1 (major_mem_adjacent ws _ d idx hmaj)).1
    simp only [hmaj] at hr
    rcases List.mem_or_eq_of_mem_set hr with h | h
    · rcases List.mem_or_eq_of_mem_set h with h2 | h2
      · exact hws r h2
      · subst h2
        have hsib := hws _ (getD_mem_of_lt ws.regions idx hidx)
        exact ⟨hsib.1, hsib.2⟩
    · subst h
      have hreg := hws _ (getD_mem_of_lt ws.regions i hi)
      exact ⟨hreg.1, hreg.2⟩

/-- C4 amended: the minimum tile size is enforced per axis by the set_*
    mutators (a successful call leaves the mutated extent at least the
    minimum and the other extent untouched), and resize_region and
    swap_region preserve the property that every region is at least
    20 by 20; create_region, however, performs no minimum-size check
    (see the counterexample). -/
theorem minSizeEnforcement :
    (∀ (r : Region) (v : Int), (r.set_top v).2 = none →
      MIN_REGION_SIZE.h ≤ (r.set_top v).1.size.h ∧ (r.set_top v).1.size.w = r.size.w) ∧
    (∀ (r : Region) (v : Int), (r.set_bottom v).2 = none →
      MIN_REGION_SIZE.h ≤ (r.set_bottom v).1.size.h ∧ (r.set_bottom v).1.size.w = r.size.w) ∧
    (∀ (r : Region) (v : Int), (r.set_left v).2 = none →
      MIN_REGION_SIZE.w ≤ (r.set_left v).1.size.w ∧ (r.set_left v).1.size.h = r.size.h) ∧
    (∀ (r : Region) (v : Int), (r.set_right v).2 = none →
      MIN_REGION_SIZE.w ≤ (r.set_right v).1.size.w ∧ (r.set_right v).1.size.h = r.size.h) ∧
    (∀ (ws : Workspace) (i : Nat) (rz : Resize), (∀ r ∈ ws.regions, r.minOK) →
      ∀ r ∈ (ws.resize_region i rz).1.regions, r.minOK) ∧
    (∀ (ws : Workspace) (i : Nat) (d : Direction), i < ws.regions.length →
      (∀ r ∈ ws.regions, r.minOK) → ∀ r ∈ (ws.swap_region i d).1.regions, r.minOK) :=
  ⟨set_top_axis, set_bottom_axis, set_left_axis, set_right_axis, resize_minOK, swap_minOK⟩

def wsSplit4 : Workspace :=
  (((((Workspace.new { w := 200, h := 200 }).create_region 0 Direction.Right).1.create_region
      0 Direction.Right).1.create_region 0 Direction.Right).1.create_region 0 Direction.Right).1

/-- C4 counterexample: four successive create_region splits of a fresh
    200 by 200 workspace leave region 0 at width 13 and region 4 at
    width 12, both below the 20-unit minimum: create_region is a core
    mutation that always succeeds yet violates the claimed minimum-size
    invariant. -/
theorem createBelowMinSize :
    (wsSplit4.regions.getD 0 default).size.w = 13 ∧
    (wsSplit4.regions.getD 4 default).size.w = 12 ∧
    (wsSplit4.regions.getD 4 default).size.w < MIN_REGION_SIZE.w := by decide

/-- Witness for C4 amended at concrete inputs: a successful set_top keeps
    the height at least minimal, and a resize_region call on a workspace of
    minimum-sized regions keeps every region minimum-sized. -/
theorem minSizeEnforcement_witness :
    MIN_REGION_SIZE.h ≤ (r0.set_top 30).1.size.h ∧
    (∀ r ∈ (wsAB.resize_region 0 (Resize.Right 5)).1.regions, r.minOK) :=
  ⟨(minSizeEnforcement.1 r0 30 (by decide)).1,
   minSizeEnforcement.2.2.2.2.1 wsAB 0 (Resize.Right 5) (by decide)⟩

/- ------------------------------------------------------------------ -/
/- C2: what a Right resize really does to the sole right neighbor.     -/
/- ------------------------------------------------------------------ -/

theorem lt_length_of_getElem?_some {α : Type} (l : List α) (i : Nat) (a : α)
    (h : l[i]? = some a) : i < l.length := by
  by_contra hlt
  rw [List.getElem?_eq_none (le_of_not_lt hlt)] at h
  cases h

theorem cascade_untouched (f : Region → Region × Option ErrorKind)
    (idxs : List Nat) (ws : Workspace) (k : Nat) (hk : k ∉ idxs) :
    ((ws.cascade idxs f).1.regions)[k]? = ws.regions[k]? := by
  induction idxs generalizing ws with
  | nil => rfl
  | cons j rest ih =>
      rcases hfs : f (ws.regions.getD j default) with ⟨sib2, err⟩
      cases err with
      | some e =>
          simp only [Workspace.cascade, hfs]
      | none =>
          simp only [Workspace.cascade, hfs]
          rw [ih { ws with regions := ws.regions.set j sib2 }
            (fun hmem => hk (List.mem_cons_of_mem j hmem))]
          refine List.getElem?_set_ne ?_
          intro hjk
          exact hk (by rw [← hjk]; exact List.mem_cons_self j rest)

theorem set_right_success (r : Region) (v : Int) (r2 : Region)
    (h : r.set_right v = (r2, none)) :
    r2.size.w = (v - r.left).toNat ∧ r2.size.h = r.size.h ∧ r2.pos = r.pos ∧
      r2.float = r.float ∧ r.left + 20 ≤ v := by
  unfold Region.set_right at h
  split at h
  · simp at h
  · rename_i hc
    rw [Prod.mk.injEq] at h
    obtain ⟨h1, -⟩ := h
    subst h1
    simp only [MIN_REGION_SIZE] at hc
    refine ⟨rfl, rfl, rfl, rfl, by omega⟩

/-- C2 amended: with region A at index i whose only pre-call right neighbor
    is B at index j, a successful resize_region(A, Right d) with d at least 1
    widens A by d keeping its left, top and bottom edges, but leaves B
    entirely unchanged: the cascade recomputes adjacency only after moving
    the right edge of A, so B is no longer at the 1-unit offset and absorbs
    nothing (the claimed shrink of B by d does not happen). -/
theorem resizeRightSoleNeighbor (ws : Workspace) (i j : Nat) (A B : Region) (d : Int)
    (hA : ws.regions[i]? = some A)
    (hB : ws.regions[j]? = some B)
    (hadj : ws.adjacent_regions A Direction.Right = [j])
    (hij : i ≠ j) (hd : 1 ≤ d)
    (hok : (ws.resize_region i (Resize.Right d)).2 = none) :
    (∃ A2, ((ws.resize_region i (Resize.Right d)).1.regions)[i]? = some A2 ∧
      (A2.size.w : Int) = (A.size.w : Int) + d ∧ A2.left = A.left ∧ A2.top = A.top ∧
      A2.bottom = A.bottom) ∧
    ((ws.resize_region i (Resize.Right d)).1.regions)[j]? = some B := by
  have hi : i < ws.regions.length := lt_length_of_getElem?_some _ _ _ hA
  have hgA : ws.regions.getD i default = A := by
    rw [List.getD_eq_getElem?_getD, hA]
    rfl
  rcases hset : A.set_right (A.right + d) with ⟨r2, err⟩
  cases err with
  | some e =>
      have hres : ws.resize_region i (Resize.Right d) = (ws, some e) := by
        unfold Workspace.resize_region
        rw [hgA]
        simp only [hset]
      rw [hres] at hok
      cases hok
  | none =>
      have hres : ws.resize_region i (Resize.Right d) =
          Workspace.cascade { ws with regions := ws.regions.set i r2 }
            (Workspace.adjacent_regions { ws with regions := ws.regions.set i r2 } r2
              Direction.Right)
            (fun sib => sib.set_left (sib.left - d)) := by
        unfold Workspace.resize_region
        rw [hgA]
        simp only [hset]
      obtain ⟨hw2, hh2, hp2, hf2, hle⟩ := set_right_success A (A.right + d) r2 hset
      simp only [Region.right, Region.left] at hw2 hle
      have hjmem0 : j ∈ ws.adjacent_regions A Direction.Right := by
        rw [hadj]
        exact List.mem_cons_self j []
      obtain ⟨Bx, hBx, heB⟩ := (mem_shared_iff ws A Direction.Right j).1
        ((mem_adjacent_iff ws A Direction.Right j).1 hjmem0).1
      rw [hB] at hBx
      cases hBx
      simp only [edgeTest, beq_iff_eq, Region.right, Region.left] at heB
      have hr2w : (r2.size.w : Int) = (A.size.w : Int) + d := by omega
      have hinotin : i ∉ Workspace.adjacent_regions
          { ws with regions := ws.regions.set i r2 } r2 Direction.Right := by
        intro hmem
        obtain ⟨sib, hget, he⟩ := (mem_shared_iff _ _ _ _).1
          ((mem_adjacent_iff _ _ _ _).1 hmem).1
        rw [show ({ ws with regions := ws.regions.set i r2 } : Workspace).regions =
          ws.regions.set i r2 from rfl, List.getElem?_set_eq hi] at hget
        cases hget
        simp only [edgeTest, beq_iff_eq, Region.right, Region.left] at he
        omega
      have hjnotin : j ∉ Workspace.adjacent_regions
          { ws with regions := ws.regions.set i r2 } r2 Direction.Right := by
        intro hmem
        obtain ⟨sib, hget, he⟩ := (mem_shared_iff _ _ _ _).1
          ((mem_adjacent_iff _ _ _ _).1 hmem).1
        rw [show ({ ws with regions := ws.regions.set i r2 } : Workspace).regions =
          ws.regions.set i r2 from rfl, List.getElem?_set_ne hij, hB] at hget
        cases hget
        simp only [edgeTest, beq_iff_eq, Region.right, Region.left] at he
        -- the pos and width of r2 are those of A widened by d
        rw [hp2] at he
        omega
      rw [hres]
      constructor
      · refine ⟨r2, ?_, hr2w, ?_, ?_, ?_⟩
        · rw [cascade_untouched _ _ _ i hinotin]
          exact List.getElem?_set_eq hi
        · simp only [Region.left, hp2]
        · simp only [Region.top, hp2]
        · simp only [Region.bottom, hp2, hh2]
      · rw [cascade_untouched _ _ _ j hjnotin]
        rw [show ({ ws with regions := ws.regions.set i r2 } : Workspace).regions =
          ws.regions.set i r2 from rfl, List.getElem?_set_ne hij]
        exact hB

/-- C2 counterexample: in wsAB the sole right neighbor of regA is regB
    (index 1), the call resize_region(regA, Right 5) succeeds, yet regB is
    left byte-for-byte unchanged: its left edge does not move right by 5 and
    its width does not shrink by 5, refuting the claimed cascade. -/
theorem resizeRightMissesNeighbor :
    wsAB.adjacent_regions regA Direction.Right = [1] ∧
    (wsAB.resize_region 0 (Resize.Right 5)).2 = none ∧
    (wsAB.resize_region 0 (Resize.Right 5)).1.regions.getD 1 default = regB ∧
    ((wsAB.resize_region 0 (Resize.Right 5)).1.regions.getD 1 default).left ≠ regB.left + 5 ∧
    ((wsAB.resize_region 0 (Resize.Right 5)).1.regions.getD 1 default).size.w ≠
      regB.size.w - 5 := by
  unfold Workspace.resize_region
  decide

/-- Witness for C2 amended at the concrete workspace wsAB. -/
theorem resizeRightSoleNeighbor_witness :
    (∃ A2, ((wsAB.resize_region 0 (Resize.Right 5)).1.regions)[0]? = some A2 ∧
      (A2.size.w : Int) = (regA.size.w : Int) + 5 ∧ A2.left = regA.left ∧ A2.top = regA.top ∧
      A2.bottom = regA.bottom) ∧
    ((wsAB.resize_region 0 (Resize.Right 5)).1.regions)[1]? = some regB :=
  resizeRightSoleNeighbor wsAB 0 1 regA regB 5 (by decide) (by decide) (by decide)
    (by decide) (by decide) (by unfold Workspace.resize_region; decide)

/- ------------------------------------------------------------------ -/
/- C8: a failed resize cascade is not rolled back.                     -/
/- ------------------------------------------------------------------ -/

def regA8 : Region := { size := { w := 100, h := 100 }, pos := { x := 0, y := 0 }, float := false }

def regS8a : Region := { size := { w := 40, h := 50 }, pos := { x := 89, y := 0 }, float := false }

def regS8b : Region := { size := { w := 25, h := 40 }, pos := { x := 89, y := 60 }, float := false }

def wsC8 : Workspace := { size := { w := 300, h := 100 }, regions := [regA8, regS8a, regS8b] }

/-- C8: on wsC8 the call resize_region(region 0, Right (-10)) first shrinks
    region 0 to width 90, then the cascade moves the left edge of the first
    adjacent sibling (index 1, to width 30), and stops at the second
    sibling (index 2), whose set_left would drop it below the 20-unit
    minimum width: the call returns InvalidRegion while keeping the edits
    already applied to region 0 and region 1 and leaving region 2 untouched,
    so the failed call leaves the workspace partially mutated. -/
theorem resizeFailurePartialMutation :
    wsC8.resize_region 0 (Resize.Right (-10)) =
      ({ size := { w := 300, h := 100 }, regions :=
        [{ size := { w := 90, h := 100 }, pos := { x := 0, y := 0 }, float := false },
         { size := { w := 30, h := 50 }, pos := { x := 99, y := 0 }, float := false },
         regS8b] }, some ErrorKind.InvalidRegion) ∧
    (wsC8.resize_region 0 (Resize.Right (-10))).1 ≠ wsC8 := by
  unfold Workspace.resize_region
  decide

/- ------------------------------------------------------------------ -/
/- C9: swap_region.                                                    -/
/- ------------------------------------------------------------------ -/

theorem getD_set_self (l : List Region) (i : Nat) (a : Region) (hi : i < l.length) :
    (l.set i a).getD i default = a := by
  rw [List.getD_eq_getElem?_getD, List.getElem?_set_eq hi]
  rfl

theorem getD_set_ne (l : List Region) (i j : Nat) (a : Region) (hij : i ≠ j) :
    (l.set i a).getD j default = l.getD j default := by
  rw [List.getD_eq_getElem?_getD, List.getElem?_set_ne hij, ← List.getD_eq_getElem?_getD]

theorem getElem?_eq_some_getD (l : List Region) (i : Nat) (hi : i < l.length) :
    l[i]? = some (l.getD i default) := by
  rw [List.getD_eq_getElem?_getD, List.getElem?_eq_getElem hi]
  rfl

theorem workspace_eq_of_regions (ws : Workspace) (L2 : List Region) (h : L2 = ws.regions) :
    ({ size := ws.size, regions := L2 } : Workspace) = ws := by
  rw [h]

theorem double_swap_list (l : List Region) (i idx : Nat) (hi : i < l.length)
    (hidx : idx < l.length) (r2 s2 r2p s2p : Region)
    (hr2 : r2 = { l.getD i default with size := (l.getD idx default).size, pos := (l.getD idx default).pos })
    (hs2 : s2 = { l.getD idx default with size := (l.getD i default).size, pos := (l.getD i default).pos })
    (hr2p : r2p = { ((l.set i r2).set idx s2).getD i default with size := (((l.set i r2).set idx s2).getD idx default).size, pos := (((l.set i r2).set idx s2).getD idx default).pos })
    (hs2p : s2p = { ((l.set i r2).set idx s2).getD idx default with size := (((l.set i r2).set idx s2).getD i default).size, pos := (((l.set i r2).set idx s2).getD i default).pos }) :
    (((l.set i r2).set idx s2).set i r2p).set idx s2p = l := by
  have hlen1 : i < (l.set i r2).length := by
    rw [List.length_set]
    exact hi
  have hlen3 : i < (((l.set i r2).set idx s2).set i r2p).length := by
    rw [List.length_set, List.length_set, List.length_set]
    exact hi
  have hlen4 : idx < (((l.set i r2).set idx s2).set i r2p).length := by
    rw [List.length_set, List.length_set, List.length_set]
    exact hidx
  by_cases hii : i = idx
  · rw [← hii] at hr2 hs2 hr2p hs2p ⊢
    have hLi : ((l.set i r2).set i s2).getD i default = s2 :=
      getD_set_self (l.set i r2) i s2 hlen1
    rw [hLi] at hr2p hs2p
    apply List.ext_getElem?
    intro n
    by_cases hn : n = i
    · rw [hn, List.getElem?_set_eq (by rw [List.length_set, List.length_set, List.length_set]; exact hi),
        getElem?_eq_some_getD l i hi, hs2p, hs2]
    · rw [List.getElem?_set_ne (fun h => hn h.symm), List.getElem?_set_ne (fun h => hn h.symm),
        List.getElem?_set_ne (fun h => hn h.symm), List.getElem?_set_ne (fun h => hn h.symm)]
  · have hLi : ((l.set i r2).set idx s2).getD i default = r2 := by
      rw [getD_set_ne _ _ _ _ (fun h => hii h.symm)]
      exact getD_set_self l i r2 hi
    have hLidx : ((l.set i r2).set idx s2).getD idx default = s2 :=
      getD_set_self (l.set i r2) idx s2 (by rw [List.length_set]; exact hidx)
    rw [hLi, hLidx] at hr2p hs2p
    apply List.ext_getElem?
    intro n
    by_cases hn1 : n = idx
    · rw [hn1, List.getElem?_set_eq hlen4, getElem?_eq_some_getD l idx hidx, hs2p, hr2, hs2]
    · by_cases hn2 : n = i
      · rw [hn2, List.getElem?_set_ne (fun h => hii h.symm),
          List.getElem?_set_eq (by rw [List.length_set, List.length_set]; exact hi),
          getElem?_eq_some_getD l i hi, hr2p, hs2, hr2]
      · rw [List.getElem?_set_ne (fun h => hn1 h.symm), List.getElem?_set_ne (fun h => hn2 h.symm),
          List.getElem?_set_ne (fun h => hn1 h.symm), List.getElem?_set_ne (fun h => hn2 h.symm)]

/-- C9: swap_region fails with NoAdjacentRegions exactly when
    major_adjacent_region finds nothing, and then leaves the workspace
    unchanged; on success it exchanges exactly the size and position of the
    region and the selected neighbor in place, keeping both float flags and
    every other region, and a second swap in the same direction that selects
    the same neighbor restores the original workspace exactly. -/
theorem swapSpec (ws : Workspace) (i : Nat) (d : Direction) (hi : i < ws.regions.length) :
    (∀ e, (ws.swap_region i d).2 = some e ↔
      (ws.major_adjacent_region (ws.regions.getD i default) d = none ∧
        e = ErrorKind.NoAdjacentRegions)) ∧
    ((ws.swap_region i d).2 ≠ none → (ws.swap_region i d).1 = ws) ∧
    (∀ idx, ws.major_adjacent_region (ws.regions.getD i default) d = some idx →
      (ws.swap_region i d).2 = none ∧
      (∃ A2 S2, ((ws.swap_region i d).1.regions)[i]? = some A2 ∧
        ((ws.swap_region i d).1.regions)[idx]? = some S2 ∧
        A2.size = (ws.regions.getD idx default).size ∧
        A2.pos = (ws.regions.getD idx default).pos ∧
        A2.float = (ws.regions.getD i default).float ∧
        S2.size = (ws.regions.getD i default).size ∧
        S2.pos = (ws.regions.getD i default).pos ∧
        S2.float = (ws.regions.getD idx default).float) ∧
      (∀ k, k ≠ i → k ≠ idx → ((ws.swap_region i d).1.regions)[k]? = ws.regions[k]?) ∧
      ((ws.swap_region i d).1.major_adjacent_region
          ((ws.swap_region i d).1.regions.getD i default) d = some idx →
        ((ws.swap_region i d).1.swap_region i d).1 = ws)) := by
  rcases hmaj : ws.major_adjacent_region (ws.regions.getD i default) d with _ | idx0
  · have hsw : ws.swap_region i d = (ws, some ErrorKind.NoAdjacentRegions) := by
      unfold Workspace.swap_region
      simp only [hmaj]
    refine ⟨?_, ?_, ?_⟩
    · intro e
      rw [hsw]
      constructor
      · intro he
        cases he
        exact ⟨rfl, rfl⟩
      · rintro ⟨-, he⟩
        rw [he]
    · intro _
      rw [hsw]
    · intro idx hidx
      exact Option.noConfusion hidx
  · have hidxlt : idx0 < ws.regions.length :=
      lt_length_of_mem_shared ws _ d idx0
        ((mem_adjacent_iff ws _ d idx0).1 (major_mem_adjacent ws _ d idx0 hmaj)).1
    have hsw : ws.swap_region i d = ({ ws with regions := (ws.regions.set i { ws.regions.getD i default with size := (ws.regions.getD idx0 default).size, pos := (ws.regions.getD idx0 default).pos }).set idx0 { ws.regions.getD idx0 default with size := (ws.regions.getD i default).size, pos := (ws.regions.getD i default).pos } }, none) := by
      unfold Workspace.swap_region
      simp only [hmaj]
    refine ⟨?_, ?_, ?_⟩
    · intro e
      rw [hsw]
      constructor
      · intro he
        cases he
      · rintro ⟨hc, -⟩
        exact Option.noConfusion hc
    · intro hne
      rw [hsw] at hne
      exact absurd rfl hne
    · intro idx hidx
      rw [Option.some_inj] at hidx
      rw [← hidx]
      refine ⟨by rw [hsw], ?_, ?_, ?_⟩
      · by_cases hii : i = idx0
        · rw [hsw, ← hii]
          exact ⟨{ ws.regions.getD i default with size := (ws.regions.getD i default).size, pos := (ws.regions.getD i default).pos }, { ws.regions.getD i default with size := (ws.regions.getD i default).size, pos := (ws.regions.getD i default).pos }, by rw [List.getElem?_set_eq (by rw [List.length_set]; exact hi)], by rw [List.getElem?_set_eq (by rw [List.length_set]; exact hi)], rfl, rfl, rfl, rfl, rfl, rfl⟩
        · rw [hsw]
          exact ⟨{ ws.regions.getD i default with size := (ws.regions.getD idx0 default).size, pos := (ws.regions.getD idx0 default).pos }, { ws.regions.getD idx0 default with size := (ws.regions.getD i default).size, pos := (ws.regions.getD i default).pos }, by rw [List.getElem?_set_ne (fun h => hii h.symm), List.getElem?_set_eq hi], by rw [List.getElem?_set_eq (by rw [List.length_set]; exact hidxlt)], rfl, rfl, rfl, rfl, rfl, rfl⟩
      · intro k hki hkidx
        rw [hsw]
        rw [List.getElem?_set_ne (fun h => hkidx h.symm), List.getElem?_set_ne (fun h => hki h.symm)]
      · intro hmaj2
        rw [hsw] at hmaj2 ⊢
        unfold Workspace.swap_region
        simp only [hmaj2]
        apply workspace_eq_of_regions
        exact double_swap_list ws.regions i idx0 hi hidxlt _ _ _ _ rfl rfl rfl rfl

def regC9a : Region := { size := { w := 2, h := 50 }, pos := { x := 0, y := 0 }, float := false }

def regC9b : Region := { size := { w := 0, h := 60 }, pos := { x := 1, y := 20 }, float := true }

def wsC9 : Workspace := { size := { w := 200, h := 200 }, regions := [regC9a, regC9b] }

/-- Witness for C9 at a concrete workspace on which swap_region succeeds
    (the major adjacent region of region 0 in direction Right is region 1)
    and a second swap selects the same neighbor and restores the workspace
    exactly. -/
theorem swapSpec_witness :
    (wsC9.swap_region 0 Direction.Right).2 = none ∧
    ((wsC9.swap_region 0 Direction.Right).1.swap_region 0 Direction.Right).1 = wsC9 := by
  have h := (swapSpec wsC9 0 Direction.Right (by decide)).2.2 1 (by decide)
  exact ⟨h.1, h.2.2.2 (by decide)⟩

/- ------------------------------------------------------------------ -/
/- C3: create_region.                                                  -/
/- ------------------------------------------------------------------ -/

/-- C3: create_region halves the sibling along the axis of the direction:
    the appended region gets the floor half of the extent, the sibling
    keeps the rest (the larger half on an odd extent) and the two extents
    sum to the original; for Up and Left the new region keeps the original
    near corner and the sibling near edge moves inward by the new extent,
    for Down and Right the sibling keeps its position and the new region is
    placed just past the resized sibling; the returned index is the new
    length of the sequence minus one, the new region inherits the float
    flag of the sibling, and on a fresh 200 by 200 workspace
    create_region(region 0, Right) yields a new region at (100, 0) of size
    100 by 200 while shrinking the original to (0, 0) size 100 by 200. -/
theorem createRegionSpec (ws : Workspace) (i : Nat) (d : Direction) (sib : Region)
    (hs : ws.regions[i]? = some sib) :
    (∃ sib2 nr,
      ((ws.create_region i d).1.regions)[i]? = some sib2 ∧
      ((ws.create_region i d).1.regions)[ws.regions.length]? = some nr ∧
      (ws.create_region i d).2 = ws.regions.length ∧
      (ws.create_region i d).1.regions.length = ws.regions.length + 1 ∧
      nr.float = sib.float ∧ sib2.float = sib.float ∧
      (match d with
       | Direction.Up =>
           nr.size.h = sib.size.h / 2 ∧ sib2.size.h = sib.size.h - sib.size.h / 2 ∧
           nr.size.h + sib2.size.h = sib.size.h ∧
           nr.size.w = sib.size.w ∧ sib2.size.w = sib.size.w ∧
           nr.pos = sib.pos ∧ sib2.pos.x = sib.pos.x ∧
           sib2.pos.y = sib.pos.y + (nr.size.h : Int)
       | Direction.Down =>
           nr.size.h = sib.size.h / 2 ∧ sib2.size.h = sib.size.h - sib.size.h / 2 ∧
           nr.size.h + sib2.size.h = sib.size.h ∧
           nr.size.w = sib.size.w ∧ sib2.size.w = sib.size.w ∧
           sib2.pos = sib.pos ∧ nr.pos.x = sib.pos.x ∧
           nr.pos.y = sib.pos.y + (sib2.size.h : Int)
       | Direction.Left =>
           nr.size.w = sib.size.w / 2 ∧ sib2.size.w = sib.size.w - sib.size.w / 2 ∧
           nr.size.w + sib2.size.w = sib.size.w ∧
           nr.size.h = sib.size.h ∧ sib2.size.h = sib.size.h ∧
           nr.pos = sib.pos ∧ sib2.pos.y = sib.pos.y ∧
           sib2.pos.x = sib.pos.x + (nr.size.w : Int)
       | Direction.Right =>
           nr.size.w = sib.size.w / 2 ∧ sib2.size.w = sib.size.w - sib.size.w / 2 ∧
           nr.size.w + sib2.size.w = sib.size.w ∧
           nr.size.h = sib.size.h ∧ sib2.size.h = sib.size.h ∧
           sib2.pos = sib.pos ∧ nr.pos.y = sib.pos.y ∧
           nr.pos.x = sib.pos.x + (sib2.size.w : Int))) ∧
    (Workspace.new { w := 200, h := 200 }).create_region 0 Direction.Right =
      ({ size := { w := 200, h := 200 }, regions :=
        [{ size := { w := 100, h := 200 }, pos := { x := 0, y := 0 }, float := false },
         { size := { w := 100, h := 200 }, pos := { x := 100, y := 0 }, float := false }] }, 1) := by
  refine ⟨?_, by decide⟩
  have hi : i < ws.regions.length := lt_length_of_getElem?_some _ _ _ hs
  have hgs : ws.regions.getD i default = sib := by
    rw [List.getD_eq_getElem?_getD, hs]
    rfl
  have hres : ws.create_region i d =
      ({ ws with regions := ws.regions.set i (splitRegions sib d).1 ++ [(splitRegions sib d).2] },
        (ws.regions.set i (splitRegions sib d).1 ++ [(splitRegions sib d).2]).length - 1) := by
    unfold Workspace.create_region
    rw [hgs]
  rw [hres]
  refine ⟨(splitRegions sib d).1, (splitRegions sib d).2, ?_, ?_, ?_, ?_, ?_, ?_, ?_⟩
  · rw [List.getElem?_append_left (by rw [List.length_set]; exact hi)]
    exact List.getElem?_set_eq hi
  · rw [show ws.regions.length = (ws.regions.set i (splitRegions sib d).1).length from
      (List.length_set ws.regions i _).symm]
    exact List.getElem?_concat_length _ _
  · rw [List.length_append, List.length_set]
    rfl
  · rw [List.length_append, List.length_set]
    rfl
  · cases d <;> rfl
  · cases d <;> rfl
  · cases d with
    | Up =>
        refine ⟨rfl, ?_, ?_, rfl, rfl, rfl, rfl, rfl⟩
        · show sib.size.h / 2 + sib.size.h % 2 = sib.size.h - sib.size.h / 2
          omega
        · show sib.size.h / 2 + (sib.size.h / 2 + sib.size.h % 2) = sib.size.h
          omega
    | Down =>
        refine ⟨rfl, ?_, ?_, rfl, rfl, rfl, rfl, rfl⟩
        · show sib.size.h / 2 + sib.size.h % 2 = sib.size.h - sib.size.h / 2
          omega
        · show sib.size.h / 2 + (sib.size.h / 2 + sib.size.h % 2) = sib.size.h
          omega
    | Left =>
        refine ⟨rfl, ?_, ?_, rfl, rfl, rfl, rfl, rfl⟩
        · show sib.size.w / 2 + sib.size.w % 2 = sib.size.w - sib.size.w / 2
          omega
        · show sib.size.w / 2 + (sib.size.w / 2 + sib.size.w % 2) = sib.size.w
          omega
    | Right =>
        refine ⟨rfl, ?_, ?_, rfl, rfl, rfl, rfl, rfl⟩
        · show sib.size.w / 2 + sib.size.w % 2 = sib.size.w - sib.size.w / 2
          omega
        · show sib.size.w / 2 + (sib.size.w / 2 + sib.size.w % 2) = sib.size.w
          omega

/-- Witness for C3 at the fresh 200 by 200 workspace split to the Right. -/
theorem createRegionSpec_witness :
    ∃ sib2 nr,
      (((Workspace.new { w := 200, h := 200 }).create_region 0 Direction.Right).1.regions)[0]? =
        some sib2 ∧
      (((Workspace.new { w := 200, h := 200 }).create_region 0 Direction.Right).1.regions)[1]? =
        some nr ∧
      ((Workspace.new { w := 200, h := 200 }).create_region 0 Direction.Right).2 = 1 ∧
      nr.size.w = 100 ∧ nr.size.h = 200 ∧ nr.pos.x = 100 ∧ nr.pos.y = 0 ∧
      sib2.size.w = 100 ∧ sib2.size.h = 200 ∧ sib2.pos = { x := 0, y := 0 } ∧
      nr.float = false := by
  obtain ⟨⟨sib2, nr, h1, h2, h3, h4, h5, h6, h7⟩, -⟩ :=
    createRegionSpec (Workspace.new { w := 200, h := 200 }) 0 Direction.Right
      { size := { w := 200, h := 200 }, pos := { x := 0, y := 0 }, float := false } (by decide)
  have h7R : nr.size.w = 100 ∧ sib2.size.w = 100 ∧ nr.size.w + sib2.size.w = 200 ∧
      nr.size.h = 200 ∧ sib2.size.h = 200 ∧ sib2.pos = { x := 0, y := 0 } ∧
      nr.pos.y = 0 ∧ nr.pos.x = 0 + (sib2.size.w : Int) := h7
  refine ⟨sib2, nr, h1, h2, h3, h7R.1, h7R.2.2.2.1, ?_, h7R.2.2.2.2.2.2.1, h7R.2.1,
    h7R.2.2.2.2.1, h7R.2.2.2.2.2.1, h5⟩
  rw [h7R.2.2.2.2.2.2.2, h7R.2.1]
  decide

/- ------------------------------------------------------------------ -/
/- C1: the tiling invariant.                                           -/
/- Rectangles are half-open boxes of integer points: two regions with   -/
/- positive extents overlap in the plane exactly when they share such   -/
/- a point, and the union of the region boxes equals the workspace box  -/
/- exactly when the point sets agree.                                   -/
/- ------------------------------------------------------------------ -/

/-- The integer points of the half-open box of the region. -/
def Region.contains (r : Region) (p : Int × Int) : Prop :=
  r.left ≤ p.1 ∧ p.1 < r.right ∧ r.top ≤ p.2 ∧ p.2 < r.bottom

instance (r : Region) (p : Int × Int) : Decidable (r.contains p) :=
  inferInstanceAs (Decidable (r.left ≤ p.1 ∧ p.1 < r.right ∧ r.top ≤ p.2 ∧ p.2 < r.bottom))

/-- The union of the region boxes equals the workspace box. -/
def Workspace.covers (ws : Workspace) : Prop :=
  ∀ p : Int × Int,
    (0 ≤ p.1 ∧ p.1 < (ws.size.w : Int) ∧ 0 ≤ p.2 ∧ p.2 < (ws.size.h : Int)) ↔
      ∃ (j : Nat) (r : Region), ws.regions[j]? = some r ∧ r.contains p

/-- No two regions of the sequence overlap. -/
def Workspace.disjointRegions (ws : Workspace) : Prop :=
  ∀ (j k : Nat) (rj rk : Region), j ≠ k → ws.regions[j]? = some rj →
    ws.regions[k]? = some rk → ∀ p : Int × Int, ¬(rj.contains p ∧ rk.contains p)

/-- The tiling invariant of the specification. -/
def Workspace.tiling (ws : Workspace) : Prop :=
  ws.covers ∧ ws.disjointRegions

theorem contains_geom (a b : Region) (hsize : a.size = b.size) (hpos : a.pos = b.pos)
    (p : Int × Int) : a.contains p ↔ b.contains p := by
  unfold Region.contains Region.left Region.right Region.top Region.bottom
  rw [hsize, hpos]

theorem new_region_contains (size : Rectangle) (p : Int × Int) :
    Region.contains { size := size, pos := { x := 0, y := 0 }, float := false } p ↔
      (0 ≤ p.1 ∧ p.1 < (size.w : Int) ∧ 0 ≤ p.2 ∧ p.2 < (size.h : Int)) := by
  simp [Region.contains, Region.left, Region.right, Region.top, Region.bottom]

theorem new_tiling (size : Rectangle) : (Workspace.new size).tiling := by
  unfold Workspace.tiling Workspace.covers Workspace.disjointRegions
  refine ⟨?_, ?_⟩
  · intro p
    constructor
    · intro hp
      exact ⟨0, _, rfl, (new_region_contains size p).2 hp⟩
    · rintro ⟨j, r, hj, hr⟩
      cases j with
      | zero =>
          cases hj
          exact (new_region_contains size p).1 hr
      | succ n =>
          rw [show (Workspace.new size).regions =
            [{ size := size, pos := { x := 0, y := 0 }, float := false }] from rfl] at hj
          simp at hj
  · intro j k rj rk hjk hj hk p
    cases j with
    | zero =>
        cases k with
        | zero => exact absurd rfl hjk
        | succ n =>
            rw [show (Workspace.new size).regions =
              [{ size := size, pos := { x := 0, y := 0 }, float := false }] from rfl] at hk
            simp at hk
    | succ n =>
        rw [show (Workspace.new size).regions =
          [{ size := size, pos := { x := 0, y := 0 }, float := false }] from rfl] at hj
        simp at hj

theorem splitRegions_partition (sib : Region) (d : Direction) (p : Int × Int) :
    (sib.contains p ↔
      ((splitRegions sib d).1.contains p ∨ (splitRegions sib d).2.contains p)) ∧
    ¬((splitRegions sib d).1.contains p ∧ (splitRegions sib d).2.contains p) := by
  cases d <;>
    · simp only [splitRegions, Region.contains, Region.left, Region.right, Region.top,
        Region.bottom]
      omega

theorem create_getElem? (ws : Workspace) (i : Nat) (d : Direction)
    (hi : i < ws.regions.length) (j : Nat) :
    ((ws.create_region i d).1.regions)[j]? =
      if j = i then some (splitRegions (ws.regions.getD i default) d).1
      else if j = ws.regions.length then some (splitRegions (ws.regions.getD i default) d).2
      else ws.regions[j]? := by
  have hres : (ws.create_region i d).1.regions =
      ws.regions.set i (splitRegions (ws.regions.getD i default) d).1 ++
        [(splitRegions (ws.regions.getD i default) d).2] := rfl
  rw [hres]
  by_cases h1 : j = i
  · rw [if_pos h1, h1, List.getElem?_append_left (by rw [List.length_set]; exact hi),
      List.getElem?_set_eq hi]
  · rw [if_neg h1]
    by_cases h2 : j = ws.regions.length
    · rw [if_pos h2, h2,
        show ws.regions.length =
          (ws.regions.set i (splitRegions (ws.regions.getD i default) d).1).length from
          (List.length_set ws.regions i _).symm]
      exact List.getElem?_concat_length _ _
    · rw [if_neg h2]
      by_cases h3 : j < ws.regions.length
      · rw [List.getElem?_append_left (by rw [List.length_set]; exact h3),
          List.getElem?_set_ne (fun h => h1 h.symm)]
      · rw [List.getElem?_append_right (by rw [List.length_set]; omega),
          List.getElem?_eq_none (l := ws.regions) (by omega),
          List.getElem?_eq_none (by rw [List.length_set]; simp; omega)]

theorem create_cases (ws : Workspace) (i : Nat) (d : Direction)
    (hi : i < ws.regions.length) (j : Nat) (r : Region)
    (hj : ((ws.create_region i d).1.regions)[j]? = some r) :
    (j = i ∧ r = (splitRegions (ws.regions.getD i default) d).1) ∨
      (j = ws.regions.length ∧ r = (splitRegions (ws.regions.getD i default) d).2) ∨
      (j ≠ i ∧ j ≠ ws.regions.length ∧ ws.regions[j]? = some r) := by
  rw [create_getElem? ws i d hi j] at hj
  by_cases h1 : j = i
  · rw [if_pos h1] at hj
    cases hj
    exact Or.inl ⟨h1, rfl⟩
  · rw [if_neg h1] at hj
    by_cases h2 : j = ws.regions.length
    · rw [if_pos h2] at hj
      cases hj
      exact Or.inr (Or.inl ⟨h2, rfl⟩)
    · rw [if_neg h2] at hj
      exact Or.inr (Or.inr ⟨h1, h2, hj⟩)

theorem tiling_create (ws : Workspace) (i : Nat) (d : Direction)
    (hi : i < ws.regions.length) (ht : ws.tiling) : (ws.create_region i d).1.tiling := by
  obtain ⟨hcov, hdis⟩ := ht
  unfold Workspace.covers at hcov
  unfold Workspace.disjointRegions at hdis
  have hsm := getElem?_eq_some_getD ws.regions i hi
  have hsub1 : ∀ p : Int × Int,
      (splitRegions (ws.regions.getD i default) d).1.contains p →
        (ws.regions.getD i default).contains p :=
    fun p h => (splitRegions_partition _ d p).1.mpr (Or.inl h)
  have hsub2 : ∀ p : Int × Int,
      (splitRegions (ws.regions.getD i default) d).2.contains p →
        (ws.regions.getD i default).contains p :=
    fun p h => (splitRegions_partition _ d p).1.mpr (Or.inr h)
  unfold Workspace.tiling Workspace.covers Workspace.disjointRegions
  constructor
  · intro p
    constructor
    · intro hp
      obtain ⟨j, r, hj, hr⟩ := (hcov p).1 hp
      by_cases hji : j = i
      · rw [hji, hsm] at hj
        rw [Option.some_inj] at hj
        rw [← hj] at hr
        rcases (splitRegions_partition (ws.regions.getD i default) d p).1.1 hr with hc | hc
        · exact ⟨i, _, by rw [create_getElem? ws i d hi i, if_pos rfl], hc⟩
        · exact ⟨ws.regions.length, _,
            by rw [create_getElem? ws i d hi ws.regions.length, if_neg (by omega), if_pos rfl],
            hc⟩
      · have hjlt : j < ws.regions.length := lt_length_of_getElem?_some _ _ _ hj
        refine ⟨j, r, ?_, hr⟩
        rw [create_getElem? ws i d hi j, if_neg hji, if_neg (by omega)]
        exact hj
    · rintro ⟨j, r, hj, hr⟩
      rcases create_cases ws i d hi j r hj with ⟨-, hr1⟩ | ⟨-, hr1⟩ | ⟨-, -, hj2⟩
      · rw [hr1] at hr
        exact (hcov p).2 ⟨i, _, hsm, hsub1 p hr⟩
      · rw [hr1] at hr
        exact (hcov p).2 ⟨i, _, hsm, hsub2 p hr⟩
      · exact (hcov p).2 ⟨j, r, hj2, hr⟩
  · intro j k rj rk hjk hj hk p hcontra
    rcases create_cases ws i d hi j rj hj with ⟨hj1, hr1⟩ | ⟨hj1, hr1⟩ | ⟨hj1, hj1b, hj2⟩ <;>
      rcases create_cases ws i d hi k rk hk with ⟨hk1, hs1⟩ | ⟨hk1, hs1⟩ | ⟨hk1, hk1b, hk2⟩
    · exact hjk (by rw [hj1, hk1])
    · rw [hr1, hs1] at hcontra
      exact (splitRegions_partition (ws.regions.getD i default) d p).2 hcontra
    · rw [hr1] at hcontra
      exact hdis i k (ws.regions.getD i default) rk (fun h => hk1 h.symm) hsm hk2 p
        ⟨hsub1 p hcontra.1, hcontra.2⟩
    · rw [hr1, hs1] at hcontra
      exact (splitRegions_partition (ws.regions.getD i default) d p).2 ⟨hcontra.2, hcontra.1⟩
    · exact hjk (by rw [hj1, hk1])
    · rw [hr1] at hcontra
      exact hdis i k (ws.regions.getD i default) rk (fun h => hk1 h.symm) hsm hk2 p
        ⟨hsub2 p hcontra.1, hcontra.2⟩
    · rw [hs1] at hcontra
      exact hdis j i rj (ws.regions.getD i default) hj1 hj2 hsm p
        ⟨hcontra.1, hsub1 p hcontra.2⟩
    · rw [hs1] at hcontra
      exact hdis j i rj (ws.regions.getD i default) hj1 hj2 hsm p
        ⟨hcontra.1, hsub2 p hcontra.2⟩
    · exact hdis j k rj rk hjk hj2 hk2 p hcontra

theorem swap_getElem? (l : List Region) (i idx : Nat) (r2 s2 : Region)
    (hi : i < l.length) (hidx : idx < l.length) (j : Nat) :
    ((l.set i r2).set idx s2)[j]? =
      if j = idx then some s2 else if j = i then some r2 else l[j]? := by
  by_cases h1 : j = idx
  · rw [if_pos h1, h1, List.getElem?_set_eq (by rw [List.length_set]; exact hidx)]
  · rw [if_neg h1, List.getElem?_set_ne (fun h => h1 h.symm)]
    by_cases h2 : j = i
    · rw [if_pos h2, h2, List.getElem?_set_eq hi]
    · rw [if_neg h2, List.getElem?_set_ne (fun h => h2 h.symm)]

theorem tiling_swap_core (ws : Workspace) (i idx : Nat) (hi : i < ws.regions.length)
    (hidx : idx < ws.regions.length) (hii : i ≠ idx) (R2 S2 : Region)
    (hRs : R2.size = (ws.regions.getD idx default).size)
    (hRp : R2.pos = (ws.regions.getD idx default).pos)
    (hSs : S2.size = (ws.regions.getD i default).size)
    (hSp : S2.pos = (ws.regions.getD i default).pos)
    (ht : ws.tiling) :
    (Workspace.mk ws.size ((ws.regions.set i R2).set idx S2)).tiling := by
  obtain ⟨hcov, hdis⟩ := ht
  unfold Workspace.covers at hcov
  unfold Workspace.disjointRegions at hdis
  have hsmi := getElem?_eq_some_getD ws.regions i hi
  have hsmidx := getElem?_eq_some_getD ws.regions idx hidx
  have hchar := swap_getElem? ws.regions i idx R2 S2 hi hidx
  have hcR : ∀ p : Int × Int, R2.contains p ↔ (ws.regions.getD idx default).contains p :=
    fun p => contains_geom _ _ hRs hRp p
  have hcS : ∀ p : Int × Int, S2.contains p ↔ (ws.regions.getD i default).contains p :=
    fun p => contains_geom _ _ hSs hSp p
  unfold Workspace.tiling Workspace.covers Workspace.disjointRegions
  constructor
  · intro p
    constructor
    · intro hp
      obtain ⟨j, r, hj, hr⟩ := (hcov p).1 hp
      by_cases hj1 : j = idx
      · refine ⟨i, R2, ?_, ?_⟩
        · rw [hchar i, if_neg hii, if_pos rfl]
        · rw [hj1, hsmidx, Option.some_inj] at hj
          refine (hcR p).2 ?_
          rw [hj]
          exact hr
      · by_cases hj2 : j = i
        · refine ⟨idx, S2, ?_, ?_⟩
          · rw [hchar idx, if_pos rfl]
          · rw [hj2, hsmi, Option.some_inj] at hj
            refine (hcS p).2 ?_
            rw [hj]
            exact hr
        · refine ⟨j, r, ?_, hr⟩
          rw [hchar j, if_neg hj1, if_neg hj2]
          exact hj
    · rintro ⟨j, r, hj, hr⟩
      rw [hchar j] at hj
      by_cases hj1 : j = idx
      · rw [if_pos hj1, Option.some_inj] at hj
        refine (hcov p).2 ⟨i, _, hsmi, (hcS p).1 ?_⟩
        rw [hj]
        exact hr
      · rw [if_neg hj1] at hj
        by_cases hj2 : j = i
        · rw [if_pos hj2, Option.some_inj] at hj
          refine (hcov p).2 ⟨idx, _, hsmidx, (hcR p).1 ?_⟩
          rw [hj]
          exact hr
        · rw [if_neg hj2] at hj
          exact (hcov p).2 ⟨j, r, hj, hr⟩
  · intro j k rj rk hjk hj hk p hcontra
    rw [hchar j] at hj
    rw [hchar k] at hk
    by_cases hj1 : j = idx
    · rw [if_pos hj1, Option.some_inj] at hj
      rw [← hj] at hcontra
      by_cases hk1 : k = idx
      · exact hjk (by rw [hj1, hk1])
      · rw [if_neg hk1] at hk
        by_cases hk2 : k = i
        · rw [if_pos hk2, Option.some_inj] at hk
          rw [← hk] at hcontra
          exact hdis i idx (ws.regions.getD i default) (ws.regions.getD idx default) hii
            hsmi hsmidx p ⟨(hcS p).1 hcontra.1, (hcR p).1 hcontra.2⟩
        · rw [if_neg hk2] at hk
          exact hdis i k (ws.regions.getD i default) rk (fun h => hk2 h.symm) hsmi hk p
            ⟨(hcS p).1 hcontra.1, hcontra.2⟩
    · rw [if_neg hj1] at hj
      by_cases hj2 : j = i
      · rw [if_pos hj2, Option.some_inj] at hj
        rw [← hj] at hcontra
        by_cases hk1 : k = idx
        · rw [if_pos hk1, Option.some_inj] at hk
          rw [← hk] at hcontra
          exact hdis idx i (ws.regions.getD idx default) (ws.regions.getD i default)
            (fun h => hii h.symm) hsmidx hsmi p ⟨(hcR p).1 hcontra.1, (hcS p).1 hcontra.2⟩
        · rw [if_neg hk1] at hk
          by_cases hk2 : k = i
          · exact hjk (by rw [hj2, hk2])
          · rw [if_neg hk2] at hk
            exact hdis idx k (ws.regions.getD idx default) rk (fun h => hk1 h.symm)
              hsmidx hk p ⟨(hcR p).1 hcontra.1, hcontra.2⟩
      · rw [if_neg hj2] at hj
        by_cases hk1 : k = idx
        · rw [if_pos hk1, Option.some_inj] at hk
          rw [← hk] at hcontra
          exact hdis j i rj (ws.regions.getD i default) hj2 hj hsmi p
            ⟨hcontra.1, (hcS p).1 hcontra.2⟩
        · rw [if_neg hk1] at hk
          by_cases hk2 : k = i
          · rw [if_pos hk2, Option.some_inj] at hk
            rw [← hk] at hcontra
            exact hdis j idx rj (ws.regions.getD idx default) hj1 hj hsmidx p
              ⟨hcontra.1, (hcR p).1 hcontra.2⟩
          · rw [if_neg hk2] at hk
            exact hdis j k rj rk hjk hj hk p hcontra

theorem tiling_swap (ws : Workspace) (i : Nat) (d : Direction) (hi : i < ws.regions.length)
    (ht : ws.tiling) : (ws.swap_region i d).1.tiling := by
  rcases hmaj : ws.major_adjacent_region (ws.regions.getD i default) d with _ | idx
  · have hsw : (ws.swap_region i d).1 = ws := by
      unfold Workspace.swap_region
      simp only [hmaj]
    rw [hsw]
    exact ht
  · have hidxlt : idx < ws.regions.length :=
      lt_length_of_mem_shared ws _ d idx
        ((mem_adjacent_iff ws _ d idx).1 (major_mem_adjacent ws _ d idx hmaj)).1
    have hsw : (ws.swap_region i d).1 = { ws with regions := (ws.regions.set i { ws.regions.getD i default with size := (ws.regions.getD idx default).size, pos := (ws.regions.getD idx default).pos }).set idx { ws.regions.getD idx default with size := (ws.regions.getD i default).size, pos := (ws.regions.getD i default).pos } } := by
      unfold Workspace.swap_region
      simp only [hmaj]
    rw [hsw]
    by_cases hii : i = idx
    · have hL : (ws.regions.set i { ws.regions.getD i default with size := (ws.regions.getD idx default).size, pos := (ws.regions.getD idx default).pos }).set idx { ws.regions.getD idx default with size := (ws.regions.getD i default).size, pos := (ws.regions.getD i default).pos } = ws.regions := by
        rw [← hii]
        apply List.ext_getElem?
        intro n
        by_cases hn : n = i
        · rw [hn, List.getElem?_set_eq (by rw [List.length_set]; exact hi),
            getElem?_eq_some_getD ws.regions i hi]
        · rw [List.getElem?_set_ne (fun h => hn h.symm),
            List.getElem?_set_ne (fun h => hn h.symm)]
      rw [hL]
      exact ht
    · exact tiling_swap_core ws i idx hi hidxlt hii _ _ rfl rfl rfl rfl ht

/-- A create_region or swap_region call addressed by region index. -/
inductive CSOp where
  | create (i : Nat) (d : Direction)
  | swap (i : Nat) (d : Direction)
deriving DecidableEq

/-- Apply one call; none when the index does not address a region of the
    workspace or the call fails. -/
def applyCS (ws : Workspace) : CSOp → Option Workspace
  | CSOp.create i d =>
      if i < ws.regions.length then some (ws.create_region i d).1 else none
  | CSOp.swap i d =>
      if i < ws.regions.length then
        match ws.swap_region i d with
        | (ws2, none) => some ws2
        | (_, some _) => none
      else none

/-- Run a sequence of successful calls. -/
def runCS : Workspace → List CSOp → Option Workspace
  | ws, [] => some ws
  | ws, op :: ops =>
      match applyCS ws op with
      | none => none
      | some ws2 => runCS ws2 ops

theorem tiling_applyCS (ws ws2 : Workspace) (op : CSOp) (h : applyCS ws op = some ws2)
    (ht : ws.tiling) : ws2.tiling := by
  cases op with
  | create i d =>
      simp only [applyCS] at h
      split at h
      · rw [Option.some_inj] at h
        rw [← h]
        exact tiling_create ws i d (by assumption) ht
      · cases h
  | swap i d =>
      simp only [applyCS] at h
      split at h
      · rcases hsw : ws.swap_region i d with ⟨ws3, err⟩
        rw [hsw] at h
        cases err with
        | none =>
            have h2 : some ws3 = some ws2 := h
            rw [Option.some_inj] at h2
            rw [← h2]
            have hws3 : ws3 = (ws.swap_region i d).1 := by rw [hsw]
            rw [hws3]
            exact tiling_swap ws i d (by assumption) ht
        | some e =>
            have h2 : (none : Option Workspace) = some ws2 := h
            exact Option.noConfusion h2
      · cases h

theorem runCS_tiling : ∀ (ops : List CSOp) (ws ws2 : Workspace), ws.tiling →
    runCS ws ops = some ws2 → ws2.tiling := by
  intro ops
  induction ops with
  | nil =>
      intro ws ws2 ht h
      have h2 : some ws = some ws2 := h
      rw [Option.some_inj] at h2
      rw [← h2]
      exact ht
  | cons op rest ih =>
      intro ws ws2 ht h
      rcases hap : applyCS ws op with _ | ws3
      · have h2 : runCS ws (op :: rest) = none := by
          simp only [runCS, hap]
        rw [h] at h2
        exact Option.noConfusion h2
      · have h2 : runCS ws (op :: rest) = runCS ws3 rest := by
          simp only [runCS, hap]
        rw [h2] at h
        exact ih ws3 ws2 (tiling_applyCS ws ws3 op hap ht) h

/-- C1 amended: starting from Workspace::new, any finite sequence of
    successful create_region and swap_region calls keeps the tiling
    invariant: the union of the region boxes equals the workspace box and
    no two regions overlap.  The claim as stated is false because a
    successful resize_region call can break the invariant (see the
    counterexample). -/
theorem tilingCreateSwap (size : Rectangle) (ops : List CSOp) (ws2 : Workspace)
    (h : runCS (Workspace.new size) ops = some ws2) : ws2.tiling :=
  runCS_tiling ops (Workspace.new size) ws2 (new_tiling size) h

/-- C1 counterexample: on a fresh 200 by 200 workspace, after the
    successful call create_region(region 0, Right), the call
    resize_region(region 0, Right 10) also succeeds (the cascade finds no
    neighbor at the recomputed 1-unit offset), and the resulting workspace
    is no longer a tiling: regions 0 and 1 both contain the point
    (105, 5). -/
theorem resizeBreaksTiling :
    ((((Workspace.new { w := 200, h := 200 }).create_region 0 Direction.Right).1.resize_region 0
      (Resize.Right 10)).2 = none) ∧
    ¬((((Workspace.new { w := 200, h := 200 }).create_region 0 Direction.Right).1.resize_region 0
      (Resize.Right 10)).1.tiling) := by
  constructor
  · unfold Workspace.resize_region
    decide
  · intro ht
    obtain ⟨-, hdis⟩ := ht
    unfold Workspace.disjointRegions at hdis
    exact hdis 0 1
      { size := { w := 110, h := 200 }, pos := { x := 0, y := 0 }, float := false }
      { size := { w := 100, h := 200 }, pos := { x := 100, y := 0 }, float := false }
      (by decide)
      (by unfold Workspace.resize_region; decide)
      (by unfold Workspace.resize_region; decide)
      (105, 5) ⟨by decide, by decide⟩

/-- Witness for C1 amended: one successful create_region call on a fresh
    200 by 200 workspace, with the resulting tiling obtained from the
    theorem. -/
theorem tilingCreateSwap_witness :
    ∃ ws2, runCS (Workspace.new { w := 200, h := 200 })
      [CSOp.create 0 Direction.Right] = some ws2 ∧ ws2.tiling :=
  ⟨((Workspace.new { w := 200, h := 200 }).create_region 0 Direction.Right).1, rfl,
    tilingCreateSwap { w := 200, h := 200 } [CSOp.create 0 Direction.Right] _ rfl⟩
